import Mathlib

/-!
Verification of the Instagram-API Flask server (src/main.py) against its
natural-language specification.

The development shallowly embeds the parts of `main.py` the claims are about:

* `validInstaUrl` — the URL validation regex
  `^https?://(www\.)?instagram\.com/(p|reel|tv)/[^/]+/?.*$` used by the three
  url-parameter endpoints (lines 521, 574, 644), embedded operationally with
  Python `re` semantics (`.` does not match a newline, `$` matches at the end
  of the string or just before one final newline, `[^/]` matches any character
  other than `/`, newline included).
* `extractShortcode` — `extract_shortcode_from_url` (lines 52-65), on top of a
  model of CPython `urllib.parse.urlparse`'s `.path` computation (sanitization
  of `\t\r\n`, left-strip of C0 controls and space, scheme split, netloc split,
  fragment/query split, and the `;params` split of the last path segment).
* `retryRun` — the `retry_with_backoff` decorator (lines 68-90).
* The two resolver strategies `get_post_data_no_login` (93-185) and
  `get_post_data_ytdlp` (187-263), `extract_media_info` (265-352), and the
  HTTP endpoints `/api/data`, `/api/direct-data`, `/api/download`,
  `/api/media/stream/<shortcode>`, `/api/embed/<shortcode>`, `/health`,
  each as a function of an explicit environment (network outcomes) that also
  returns the list of outward calls it performed.

Strings are handled as `List Char` internally; machine integers do not occur
(Python ints are unbounded, modelled as `Int`/`Nat`).
-/

namespace InstaApi

/-! ## Basic list utilities -/

/-- `stripLit lit cs` returns `some rest` when `cs = lit ++ rest`, i.e. the
literal `lit` is consumed from the front, and `none` otherwise. -/
def stripLit : List Char → List Char → Option (List Char)
  | [], cs => some cs
  | _ :: _, [] => none
  | p :: ps, c :: cs => if c = p then stripLit ps cs else none

theorem stripLit_eq_some (lit : List Char) :
    ∀ cs rest, stripLit lit cs = some rest ↔ cs = lit ++ rest := by
  induction lit with
  | nil =>
    intro cs rest
    simp [stripLit]
  | cons p ps ih =>
    intro cs rest
    cases cs with
    | nil => simp [stripLit]
    | cons c cs' =>
      by_cases h : c = p
      · subst h
        simp [stripLit, ih]
      · constructor
        · intro h'
          simp [stripLit, h] at h'
        · intro h'
          rw [List.cons_append] at h'
          exact absurd (List.cons.inj h').1 h

theorem stripLit_append (lit rest : List Char) :
    stripLit lit (lit ++ rest) = some rest :=
  (stripLit_eq_some lit (lit ++ rest) rest).mpr rfl

/-! ## The URL validation regex

`^https?://(www\.)?instagram\.com/(p|reel|tv)/[^/]+/?.*$`, Python `re.match`
semantics.  The tail `[^/]+/?.*$` is embedded as a small operational matcher
with the exact backtracking alternatives of the pattern. -/

/-- `.*$` on the remaining suffix of the whole subject string: `.` cannot
consume `'\n'`, and `$` asserts the end of the string or the position just
before a final newline. -/
def dotStarDollar : List Char → Bool
  | [] => true
  | [_] => true
  | c :: c' :: rest => c ≠ '\n' && dotStarDollar (c' :: rest)

/-- The branch of `/?` that consumes a slash, then `.*$`. -/
def slashThenRest : List Char → Bool
  | [] => false
  | c :: r => c = '/' && dotStarDollar r

/-- `/?.*$`: the optional slash is tried both ways (exact alternation
semantics of the regex). -/
def slashOptRest (cs : List Char) : Bool :=
  slashThenRest cs || dotStarDollar cs

/-- `[^/]*/?.*$` — the continuation after at least one `[^/]` char. -/
def segStar : List Char → Bool
  | [] => slashOptRest []
  | c :: rest => slashOptRest (c :: rest) || (c ≠ '/' && segStar rest)

/-- `[^/]+/?.*$` — the part of the pattern after `(p|reel|tv)/`. -/
def segPlusRest : List Char → Bool
  | [] => false
  | c :: rest => c ≠ '/' && segStar rest

/-- Consume a literal with `stripLit` and continue with `f`; the whole
alternative fails when the literal is not there. -/
def optCheck (f : List Char → Bool) (o : Option (List Char)) : Bool :=
  o.elim false f

theorem optCheck_true (f : List Char → Bool) (o : Option (List Char)) :
    optCheck f o = true ↔ ∃ r, o = some r ∧ f r = true := by
  cases o <;> simp [optCheck]

/-- `(p|reel|tv)/` then the tail pattern. -/
def altAndTail (cs : List Char) : Bool :=
  optCheck segPlusRest (stripLit "p/".data cs)
  || optCheck segPlusRest (stripLit "reel/".data cs)
  || optCheck segPlusRest (stripLit "tv/".data cs)

/-- `instagram\.com/` then the rest. -/
def hostAndPath (cs : List Char) : Bool :=
  optCheck altAndTail (stripLit "instagram.com/".data cs)

/-- `(www\.)?instagram\.com/...` — both alternatives of the optional group. -/
def wwwHostPath (cs : List Char) : Bool :=
  optCheck hostAndPath (stripLit "www.".data cs) || hostAndPath cs

/-- The full regex check performed by `re.match(r'^https?://(www\.)?instagram\.com/(p|reel|tv)/[^/]+/?.*$', url)`
at `main.py` lines 521, 574 and 644.  `https?` is the alternation of the two
scheme spellings. -/
def validInstaUrl (url : String) : Bool :=
  optCheck wwwHostPath (stripLit "https://".data url.data)
  || optCheck wwwHostPath (stripLit "http://".data url.data)

/-! ## Declarative readings of the accepted URL shape

`specShape` transcribes the spec's words
(`scheme://[www.]instagram.com/(p|reel|tv)/<segment>[/...]`, §4.1): a
non-empty slash-free segment, optionally followed by a `/` and anything.
`amendedShape` is the exact declarative semantics of the code's pattern: the
part after the segment additionally obeys the `.`/`$` newline restrictions of
the Python regex. -/

def SchemeStr (sch : List Char) : Prop :=
  sch = "http".data ∨ sch = "https".data

def WwwStr (w : List Char) : Prop :=
  w = [] ∨ w = "www.".data

def AltStr (a : List Char) : Prop :=
  a = "p".data ∨ a = "reel".data ∨ a = "tv".data

/-- The spec's reading of what may follow `(p|reel|tv)/`: a segment, then
optionally a slash and arbitrary further characters. -/
def SpecTail (cs : List Char) : Prop :=
  ∃ seg rest, cs = seg ++ rest ∧ seg ≠ [] ∧ (∀ c ∈ seg, c ≠ '/') ∧
    (rest = [] ∨ ∃ r, rest = '/' :: r)

/-- The declarative semantics of the code's tail pattern `[^/]+/?.*$`:
one-or-more non-slash characters, an optional slash, then newline-free
characters, then optionally one final newline. -/
def TailMatch (cs : List Char) : Prop :=
  ∃ s1 s2 s3 s4, cs = s1 ++ s2 ++ s3 ++ s4 ∧ s1 ≠ [] ∧
    (∀ c ∈ s1, c ≠ '/') ∧ (s2 = [] ∨ s2 = ['/']) ∧
    (∀ c ∈ s3, c ≠ '\n') ∧ (s4 = [] ∨ s4 = ['\n'])

/-- The URL shape claimed by the spec. -/
def specShape (url : String) : Prop :=
  ∃ sch w alt t, SchemeStr sch ∧ WwwStr w ∧ AltStr alt ∧ SpecTail t ∧
    url.data = sch ++ "://".data ++ w ++ "instagram.com/".data ++ alt ++ "/".data ++ t

/-- The URL shape actually accepted by the code's regex, declaratively. -/
def amendedShape (url : String) : Prop :=
  ∃ sch w alt t, SchemeStr sch ∧ WwwStr w ∧ AltStr alt ∧ TailMatch t ∧
    url.data = sch ++ "://".data ++ w ++ "instagram.com/".data ++ alt ++ "/".data ++ t

theorem dotStarDollar_iff (cs : List Char) :
    dotStarDollar cs = true ↔
      ∃ u v, cs = u ++ v ∧ (∀ c ∈ u, c ≠ '\n') ∧ (v = [] ∨ v = ['\n']) := by
  induction cs with
  | nil =>
    simp [dotStarDollar]
    exact ⟨[], [], by simp⟩
  | cons c rest ih =>
    cases rest with
    | nil =>
      simp [dotStarDollar]
      by_cases h : c = '\n'
      · exact ⟨[], [c], by simp [h]⟩
      · exact ⟨[c], [], by simp [h]⟩
    | cons c' rest' =>
      rw [show dotStarDollar (c :: c' :: rest') =
            (decide (c ≠ '\n') && dotStarDollar (c' :: rest')) from rfl]
      constructor
      · intro h
        rw [Bool.and_eq_true, decide_eq_true_iff] at h
        obtain ⟨u, v, hsplit, hu, hv⟩ := ih.mp h.2
        exact ⟨c :: u, v, by simp [hsplit], by simpa [h.1] using hu, hv⟩
      · rintro ⟨u, v, hsplit, hu, hv⟩
        rw [Bool.and_eq_true, decide_eq_true_iff]
        cases u with
        | nil =>
          rcases hv with hv | hv <;> simp [hv] at hsplit
        | cons u0 u' =>
          rw [List.cons_append] at hsplit
          obtain ⟨hc, hrest⟩ := List.cons.inj hsplit
          subst hc
          refine ⟨hu c (by simp), ih.mpr ⟨u', v, hrest, fun x hx => hu x (by simp [hx]), hv⟩⟩

theorem slashOptRest_iff (cs : List Char) :
    slashOptRest cs = true ↔
      ∃ s2 s3 s4, cs = s2 ++ s3 ++ s4 ∧ (s2 = [] ∨ s2 = ['/']) ∧
        (∀ c ∈ s3, c ≠ '\n') ∧ (s4 = [] ∨ s4 = ['\n']) := by
  constructor
  · intro h
    rw [slashOptRest, Bool.or_eq_true] at h
    rcases h with h | h
    · cases cs with
      | nil => simp [slashThenRest] at h
      | cons c r =>
        rw [slashThenRest, Bool.and_eq_true, decide_eq_true_iff] at h
        obtain ⟨hc, h⟩ := h
        subst hc
        obtain ⟨u, v, hsplit, hu, hv⟩ := (dotStarDollar_iff r).mp h
        exact ⟨['/'], u, v, by simp [hsplit], Or.inr rfl, hu, hv⟩
    · obtain ⟨u, v, hsplit, hu, hv⟩ := (dotStarDollar_iff cs).mp h
      exact ⟨[], u, v, by simp [hsplit], Or.inl rfl, hu, hv⟩
  · rintro ⟨s2, s3, s4, hsplit, hs2 | hs2, hu, hv⟩
    · rw [slashOptRest, Bool.or_eq_true]
      right
      subst hs2
      simp only [List.nil_append] at hsplit
      subst hsplit
      exact (dotStarDollar_iff (s3 ++ s4)).mpr ⟨s3, s4, rfl, hu, hv⟩
    · rw [slashOptRest, Bool.or_eq_true]
      left
      subst hs2
      rw [List.cons_append, List.nil_append] at hsplit
      subst hsplit
      simp only [slashThenRest, Bool.and_eq_true, decide_eq_true_iff]
      exact (dotStarDollar_iff (s3 ++ s4)).mpr ⟨s3, s4, rfl, hu, hv⟩

theorem segStar_iff (cs : List Char) :
    segStar cs = true ↔
      ∃ s1 s2 s3 s4, cs = s1 ++ s2 ++ s3 ++ s4 ∧
        (∀ c ∈ s1, c ≠ '/') ∧ (s2 = [] ∨ s2 = ['/']) ∧
        (∀ c ∈ s3, c ≠ '\n') ∧ (s4 = [] ∨ s4 = ['\n']) := by
  induction cs with
  | nil =>
    rw [show segStar [] = slashOptRest [] from rfl, slashOptRest_iff]
    constructor
    · rintro ⟨s2, s3, s4, hsplit, h2, h3, h4⟩
      exact ⟨[], s2, s3, s4, by simpa using hsplit, by simp, h2, h3, h4⟩
    · rintro ⟨s1, s2, s3, s4, hsplit, h1, h2, h3, h4⟩
      have hs1 : s1 = [] := by
        cases s1 with
        | nil => rfl
        | cons a b => simp at hsplit
      subst hs1
      exact ⟨s2, s3, s4, by simpa using hsplit, h2, h3, h4⟩
  | cons c rest ih =>
    rw [show segStar (c :: rest) =
          (slashOptRest (c :: rest) || (decide (c ≠ '/') && segStar rest)) from rfl]
    constructor
    · intro h
      rw [Bool.or_eq_true] at h
      rcases h with h | h
      · obtain ⟨s2, s3, s4, hsplit, h2, h3, h4⟩ := (slashOptRest_iff _).mp h
        exact ⟨[], s2, s3, s4, by simpa using hsplit, by simp, h2, h3, h4⟩
      · rw [Bool.and_eq_true, decide_eq_true_iff] at h
        obtain ⟨s1, s2, s3, s4, hsplit, h1, h2, h3, h4⟩ := ih.mp h.2
        exact ⟨c :: s1, s2, s3, s4, by simp [hsplit],
          by simpa [h.1] using h1, h2, h3, h4⟩
    · rintro ⟨s1, s2, s3, s4, hsplit, h1, h2, h3, h4⟩
      rw [Bool.or_eq_true]
      cases s1 with
      | nil =>
        left
        exact (slashOptRest_iff _).mpr ⟨s2, s3, s4, by simpa using hsplit, h2, h3, h4⟩
      | cons s10 s1' =>
        right
        rw [Bool.and_eq_true, decide_eq_true_iff]
        rw [List.cons_append, List.cons_append, List.cons_append] at hsplit
        obtain ⟨hc, hrest⟩ := List.cons.inj hsplit
        subst hc
        refine ⟨h1 c (by simp), ih.mpr ⟨s1', s2, s3, s4, by simpa using hrest,
          fun x hx => h1 x (by simp [hx]), h2, h3, h4⟩⟩

theorem segPlusRest_iff (cs : List Char) :
    segPlusRest cs = true ↔ TailMatch cs := by
  cases cs with
  | nil =>
    rw [show segPlusRest [] = false from rfl]
    simp only [Bool.false_eq_true, false_iff]
    rintro ⟨s1, s2, s3, s4, hsplit, h1, -⟩
    cases s1 with
    | nil => exact h1 rfl
    | cons a b => simp at hsplit
  | cons c rest =>
    rw [show segPlusRest (c :: rest) = (decide (c ≠ '/') && segStar rest) from rfl,
      Bool.and_eq_true, decide_eq_true_iff]
    constructor
    · rintro ⟨hc, h⟩
      obtain ⟨s1, s2, s3, s4, hsplit, h1, h2, h3, h4⟩ := (segStar_iff rest).mp h
      exact ⟨c :: s1, s2, s3, s4, by simp [hsplit], by simp,
        by simpa [hc] using h1, h2, h3, h4⟩
    · rintro ⟨s1, s2, s3, s4, hsplit, h1, hs1, h3, h4⟩
      cases s1 with
      | nil => exact absurd rfl h1
      | cons s10 s1' =>
        rw [List.cons_append, List.cons_append, List.cons_append] at hsplit
        obtain ⟨hc, hrest⟩ := List.cons.inj hsplit
        subst hc
        refine ⟨hs1 c (by simp), (segStar_iff rest).mpr ⟨s1', s2, s3, s4,
          by simpa using hrest, fun x hx => hs1 x (by simp [hx]), h3, h4⟩⟩

theorem altAndTail_iff (cs : List Char) :
    altAndTail cs = true ↔
      ∃ a t, AltStr a ∧ TailMatch t ∧ cs = a ++ "/".data ++ t := by
  constructor
  · intro h
    rw [altAndTail, Bool.or_eq_true, Bool.or_eq_true] at h
    rcases h with (h | h) | h <;>
      obtain ⟨r, hr, hm⟩ := (optCheck_true _ _).mp h <;>
      rw [stripLit_eq_some] at hr
    · exact ⟨"p".data, r, Or.inl rfl, (segPlusRest_iff r).mp hm, by rw [hr]; rfl⟩
    · exact ⟨"reel".data, r, Or.inr (Or.inl rfl), (segPlusRest_iff r).mp hm,
        by rw [hr]; rfl⟩
    · exact ⟨"tv".data, r, Or.inr (Or.inr rfl), (segPlusRest_iff r).mp hm,
        by rw [hr]; rfl⟩
  · rintro ⟨a, t, ha, ht, hcs⟩
    rw [altAndTail, Bool.or_eq_true, Bool.or_eq_true]
    have hm := (segPlusRest_iff t).mpr ht
    rcases ha with ha | ha | ha <;> subst ha <;> subst hcs
    · exact Or.inl (Or.inl ((optCheck_true _ _).mpr
        ⟨t, stripLit_append "p/".data t, hm⟩))
    · exact Or.inl (Or.inr ((optCheck_true _ _).mpr
        ⟨t, stripLit_append "reel/".data t, hm⟩))
    · exact Or.inr ((optCheck_true _ _).mpr
        ⟨t, stripLit_append "tv/".data t, hm⟩)

theorem hostAndPath_iff (cs : List Char) :
    hostAndPath cs = true ↔
      ∃ a t, AltStr a ∧ TailMatch t ∧
        cs = "instagram.com/".data ++ a ++ "/".data ++ t := by
  constructor
  · intro h
    obtain ⟨r, hr, hm⟩ := (optCheck_true _ _).mp h
    rw [stripLit_eq_some] at hr
    obtain ⟨a, t, ha, ht, hr'⟩ := (altAndTail_iff r).mp hm
    exact ⟨a, t, ha, ht, by rw [hr, hr']; simp [List.append_assoc]⟩
  · rintro ⟨a, t, ha, ht, hcs⟩
    subst hcs
    refine (optCheck_true _ _).mpr ⟨a ++ "/".data ++ t, ?_, ?_⟩
    · rw [stripLit_eq_some]
      simp [List.append_assoc]
    · exact (altAndTail_iff _).mpr ⟨a, t, ha, ht, rfl⟩

theorem wwwHostPath_iff (cs : List Char) :
    wwwHostPath cs = true ↔
      ∃ w a t, WwwStr w ∧ AltStr a ∧ TailMatch t ∧
        cs = w ++ "instagram.com/".data ++ a ++ "/".data ++ t := by
  constructor
  · intro h
    rw [wwwHostPath, Bool.or_eq_true] at h
    rcases h with h | h
    · obtain ⟨r, hr, hm⟩ := (optCheck_true _ _).mp h
      rw [stripLit_eq_some] at hr
      obtain ⟨a, t, ha, ht, hr'⟩ := (hostAndPath_iff r).mp hm
      exact ⟨"www.".data, a, t, Or.inr rfl, ha, ht,
        by rw [hr, hr']; simp [List.append_assoc]⟩
    · obtain ⟨a, t, ha, ht, hr'⟩ := (hostAndPath_iff cs).mp h
      exact ⟨[], a, t, Or.inl rfl, ha, ht, by rw [hr']; rfl⟩
  · rintro ⟨w, a, t, hw, ha, ht, hcs⟩
    rw [wwwHostPath, Bool.or_eq_true]
    rcases hw with hw | hw <;> subst hw <;> subst hcs
    · exact Or.inr ((hostAndPath_iff _).mpr ⟨a, t, ha, ht, rfl⟩)
    · refine Or.inl ((optCheck_true _ _).mpr
        ⟨"instagram.com/".data ++ a ++ "/".data ++ t, ?_,
          (hostAndPath_iff _).mpr ⟨a, t, ha, ht, rfl⟩⟩)
      rw [stripLit_eq_some]
      simp [List.append_assoc]

/-- The validation regex accepts exactly the strings of `amendedShape`: the
spec's shape with the newline restriction that Python's `.`/`$` semantics
impose on the part after the shortcode segment. -/
theorem validInstaUrl_iff_amendedShape (url : String) :
    validInstaUrl url = true ↔ amendedShape url := by
  constructor
  · intro h
    rw [validInstaUrl, Bool.or_eq_true] at h
    rcases h with h | h <;>
      obtain ⟨r, hr, hm⟩ := (optCheck_true _ _).mp h <;>
      rw [stripLit_eq_some] at hr <;>
      obtain ⟨w, a, t, hw, ha, ht, hr'⟩ := (wwwHostPath_iff r).mp hm
    · exact ⟨"https".data, w, a, t, Or.inr rfl, hw, ha, ht,
        by rw [hr, hr']; simp [List.append_assoc]⟩
    · exact ⟨"http".data, w, a, t, Or.inl rfl, hw, ha, ht,
        by rw [hr, hr']; simp [List.append_assoc]⟩
  · rintro ⟨sch, w, a, t, hs, hw, ha, ht, hurl⟩
    rw [validInstaUrl, Bool.or_eq_true]
    rcases hs with hs | hs <;> subst hs
    · refine Or.inr ((optCheck_true _ _).mpr
        ⟨w ++ "instagram.com/".data ++ a ++ "/".data ++ t, ?_,
          (wwwHostPath_iff _).mpr ⟨w, a, t, hw, ha, ht, rfl⟩⟩)
      rw [stripLit_eq_some, hurl]
      simp [List.append_assoc]
    · refine Or.inl ((optCheck_true _ _).mpr
        ⟨w ++ "instagram.com/".data ++ a ++ "/".data ++ t, ?_,
          (wwwHostPath_iff _).mpr ⟨w, a, t, hw, ha, ht, rfl⟩⟩)
      rw [stripLit_eq_some, hurl]
      simp [List.append_assoc]

/-! ## The retry/backoff wrapper (`retry_with_backoff`, lines 68-90) -/

/-- Outcome of one call of the wrapped function: a normal return, or an
exception, classified by the decorator's test
`"429" in str(e) or "rate limit" in str(e).lower() or "please wait" in str(e).lower()`. -/
inductive CallOutcome (α : Type) where
  | ok (a : α)
  | exn (rateLimited : Bool)
deriving DecidableEq, Repr

/-- What the decorated call does overall: return a value, let an exception
propagate, or fall out of the `while` loop (Python then returns `None`;
unreachable when `max_retries > 0`). -/
inductive WrapResult (α : Type) where
  | ret (a : α)
  | raised (rateLimited : Bool)
  | fellThrough
deriving DecidableEq, Repr

/-- Trace of one run of the wrapper: final result, the `time.sleep` durations
in order, and how many times the wrapped function was called. -/
structure RetryTrace (α : Type) where
  result : WrapResult α
  sleeps : List Nat
  calls : Nat
deriving DecidableEq, Repr

/-- The `while retries < max_retries` loop of `retry_with_backoff`,
structured on the fuel `maxRetries - retries` (so `fuel = 0` is the loop
guard failing and Python's implicit `return None`).  `f n` is the outcome of
the call made when `retries = n`; after a rate-limited failure the counter
is incremented, the loop re-raises if the counter reached `max_retries`
(`fuel = 1`) and otherwise sleeps `backoff * (2 ** (retries - 1))` seconds
(with the incremented, 1-indexed counter, i.e. `backoff * 2 ^ retries` here)
before the next call.  Non-rate-limited exceptions re-raise at once. -/
def retryGo {α : Type} (f : Nat → CallOutcome α) (backoff : Nat) :
    Nat → Nat → RetryTrace α
  | 0, _ => ⟨.fellThrough, [], 0⟩
  | fuel + 1, retries =>
    match f retries with
    | .ok a => ⟨.ret a, [], 1⟩
    | .exn true =>
      if fuel = 0 then ⟨.raised true, [], 1⟩
      else
        let r := retryGo f backoff fuel (retries + 1)
        ⟨r.result, backoff * 2 ^ retries :: r.sleeps, r.calls + 1⟩
    | .exn false => ⟨.raised false, [], 1⟩

/-- A full run of a function decorated with
`retry_with_backoff(max_retries, initial_backoff)`. -/
def retryRun {α : Type} (f : Nat → CallOutcome α) (maxRetries backoff : Nat) :
    RetryTrace α :=
  retryGo f backoff maxRetries 0

/-- The decorator applied with its default arguments
`max_retries=3, initial_backoff=2` (as on line 187, `@retry_with_backoff()`). -/
def retryDefault {α : Type} (f : Nat → CallOutcome α) : RetryTrace α :=
  retryRun f 3 2

/-! ## Model of `urllib.parse.urlparse(url).path`

`extract_shortcode_from_url` (lines 52-65) computes `urlparse(url).path` and
post-processes it.  CPython's `urlsplit` (3.8.11+/3.9.5+ security semantics,
matching the Python this Flask/yt-dlp code runs on) first left-strips WHATWG
C0-control-or-space characters, removes every tab/CR/LF, then splits off a
scheme (a leading ASCII letter followed by letters/digits/`+-.` up to the
first `:`), a netloc (after a leading `//`, up to the first `/`, `?` or `#`),
the fragment (at the first `#`), and the query (at the first `?`); `urlparse`
finally splits `;params` off the last path segment.  A netloc containing `[`
or `]` raises `ValueError` (modelled as `none`; CPython additionally accepts
correctly bracketed IPv6 hosts, a case no property below distinguishes since
the compared URLs always share their netloc, and validated URLs have the
literal host `instagram.com`). -/

/-- The characters `urlsplit` removes everywhere (`_UNSAFE_URL_BYTES_TO_REMOVE`). -/
def isTabCrLf (c : Char) : Bool := c = '\t' || c = '\r' || c = '\n'

/-- Left-strip of C0 controls and space, then removal of tab/CR/LF. -/
def sanitizeUrl (cs : List Char) : List Char :=
  (cs.dropWhile (fun c => c ≤ ' ')).filter (fun c => !isTabCrLf c)

/-- Index of the first `':'`, as `url.find(':')`. -/
def findColon : List Char → Option Nat
  | [] => none
  | c :: cs => if c = ':' then some 0 else (findColon cs).map (· + 1)

/-- CPython `scheme_chars`: ASCII letters, digits, `+`, `-`, `.`. -/
def isSchemeChar (c : Char) : Bool :=
  c.isAlpha || c.isDigit || c = '+' || c = '-' || c = '.'

/-- Split off a leading `scheme:` when the part before the first `':'` is a
valid scheme (non-empty, leading ASCII letter, scheme chars after it);
returns the lowercased scheme and the remainder, or the empty scheme and the
whole input. -/
def splitScheme (cs : List Char) : List Char × List Char :=
  match findColon cs with
  | some i =>
    if 0 < i ∧ (cs.headD ' ').isAlpha = true ∧
        ((cs.take i).drop 1).all isSchemeChar = true
      then ((cs.take i).map Char.toLower, cs.drop (i + 1)) else ([], cs)
  | none => ([], cs)

/-- `urllib.parse.uses_params`: the schemes for which `urlparse` splits
`;params` off the last path segment. -/
def usesParams : List (List Char) :=
  ["".data, "ftp".data, "hdl".data, "prospero".data, "http".data,
   "imap".data, "https".data, "shttp".data, "rtsp".data, "rtspu".data,
   "sip".data, "sips".data, "mms".data, "sftp".data, "tel".data]

/-- The characters that terminate a netloc. -/
def netlocDelim (c : Char) : Bool := c = '/' || c = '?' || c = '#'

/-- Everything up to the first occurrence of `c` (`url.split(c, 1)[0]`). -/
def takeUntilChar (c : Char) (cs : List Char) : List Char :=
  cs.takeWhile (· ≠ c)

/-- Split a list around its last `'/'`: `some (before, after)` with
`p = before ++ '/' :: after` and no `'/'` in `after`, or `none` when there is
no slash. -/
def splitAtLastSlash : List Char → Option (List Char × List Char)
  | [] => none
  | c :: rest =>
    match splitAtLastSlash rest with
    | some (b, a) => some (c :: b, a)
    | none => if c = '/' then some ([], rest) else none

/-- `_splitparams`: cut the path at the first `';'` at-or-after the last
`'/'` (or anywhere when there is no slash); a no-op without such a `';'`. -/
def splitParams (p : List Char) : List Char :=
  match splitAtLastSlash p with
  | some (b, a) => b ++ '/' :: takeUntilChar ';' a
  | none => takeUntilChar ';' p

/-- `;params` splitting, applied only for the schemes of `uses_params`. -/
def applyParams (scheme p : List Char) : List Char :=
  if scheme ∈ usesParams then splitParams p else p

/-- The lowercased scheme together with the path before `;params` splitting:
`urlsplit`'s sanitization, scheme split, netloc split (raising — `none` — on
a bracketed netloc), fragment split and query split. -/
def urlSchemeAndRaw (url : String) : Option (List Char × List Char) :=
  let sp := splitScheme (sanitizeUrl url.data)
  match stripLit "//".data sp.2 with
  | some r2 =>
    let netloc := r2.takeWhile (fun c => !netlocDelim c)
    let rest := r2.dropWhile (fun c => !netlocDelim c)
    if netloc.contains '[' ∨ netloc.contains ']' then none
    else some (sp.1, takeUntilChar '?' (takeUntilChar '#' rest))
  | none => some (sp.1, takeUntilChar '?' (takeUntilChar '#' sp.2))

/-- `urlparse(url).path`, or `none` when `urlsplit` raises `ValueError` on a
bracketed netloc. -/
def urlPath (url : String) : Option (List Char) :=
  (urlSchemeAndRaw url).map (fun sp => applyParams sp.1 sp.2)

/-- `if path.endswith('/'): path = path[:-1]` (lines 58-59). -/
def stripOneSlash (p : List Char) : List Char :=
  if p.getLast? = some '/' then p.dropLast else p

/-- `path.split('/')[-1]` (line 62). -/
def lastSegment (p : List Char) : List Char :=
  match splitAtLastSlash p with
  | some (_, a) => a
  | none => p

/-- `extract_shortcode_from_url` (lines 52-65): the `.path` of the parsed
URL, with one trailing slash stripped, then the last `/`-separated segment.
`none` models the `ValueError` propagating out of `urlparse`. -/
def extractShortcode (url : String) : Option String :=
  (urlPath url).map (fun p => String.mk (lastSegment (stripOneSlash p)))

/-! ## Python values and dicts

The response dictionaries the server builds are modelled as a small inductive
of Python values; a dict is an insertion-ordered association list with unique
keys (`dictSet` overwrites in place or appends). -/

inductive PyVal where
  | str (s : String)
  | int (n : Int)
  | bool (b : Bool)
  | none
  | list (xs : List PyVal)
  | dict (kvs : List (String × PyVal))

/-- A Python dict, as its insertion-ordered key/value list. -/
abbrev PyDict := List (String × PyVal)

/-- Dict assignment `d[k] = v`: overwrite in place, else append. -/
def dictSet : PyDict → String → PyVal → PyDict
  | [], k, v => [(k, v)]
  | (k', v') :: rest, k, v =>
    if k' = k then (k, v) :: rest else (k', v') :: dictSet rest k v

/-- Dict lookup `d.get(k)` (first — and by construction only — binding). -/
def dictGet : PyDict → String → Option PyVal
  | [], _ => Option.none
  | (k', v) :: rest, k => if k' = k then some v else dictGet rest k

/-- `k in d`. -/
def hasKey (d : PyDict) (k : String) : Bool :=
  (dictGet d k).isSome

/-- Python truthiness of a value. -/
def truthyVal : PyVal → Bool
  | .str s => s ≠ ""
  | .int n => n ≠ 0
  | .bool b => b
  | .none => false
  | .list xs => !xs.isEmpty
  | .dict kvs => !kvs.isEmpty

/-- Truthiness of an optional string (`if error:` on a `str`-or-`None`). -/
def truthyOS : Option String → Bool
  | Option.none => false
  | some s => s ≠ ""

/-- `str(v)` for the values that get interpolated into f-strings here;
container rendering is approximated (the server only ever interpolates the
string-valued `shortcode`). -/
def pyStr : PyVal → String
  | .str s => s
  | .int n => toString n
  | .bool true => "True"
  | .bool false => "False"
  | .none => "None"
  | .list _ => "[...]"
  | .dict _ => "{...}"

/-- An optional string as a Python value (`None` when absent). -/
def pyOptStr : Option String → PyVal
  | Option.none => .none
  | some s => .str s

/-! ## yt-dlp info dictionaries

Only the keys `main.py` reads are modelled; `Option.none` stands for an
absent key.  `entries` of a carousel are flat media dicts (nested carousels
never occur and are never read). -/

structure YtFmt where
  ext : Option String
  height : Option Int
  url : Option String
  acodec : Option String
  vcodec : Option String
deriving DecidableEq, Repr

structure YtMedia where
  id : Option String
  title : Option String
  description : Option String
  ext : Option String
  uploadDate : Option String
  viewCount : Option Int
  likeCount : Option Int
  commentCount : Option Int
  duration : Option Int
  url : Option String
  thumbnail : Option String
  uploader : Option String
  uploaderId : Option String
  uploaderUrl : Option String
  acodec : Option String
  vcodec : Option String
  formats : Option (List YtFmt)
  requestedFormats : Option (List YtFmt)
deriving DecidableEq, Repr

structure YtInfo where
  typ : Option String
  entries : Option (List YtMedia)
  media : YtMedia
deriving DecidableEq, Repr

/-- A `YtMedia` with every key absent. -/
def emptyMedia : YtMedia :=
  ⟨Option.none, Option.none, Option.none, Option.none, Option.none,
   Option.none, Option.none, Option.none, Option.none, Option.none,
   Option.none, Option.none, Option.none, Option.none, Option.none,
   Option.none, Option.none, Option.none⟩

/-! ## The environment of one request

All outbound effects are parameters: what `yt_dlp.YoutubeDL.extract_info`
and the `requests.get` calls would produce, plus `request.host_url` and the
`os.path.exists('cookie.txt')` answer.  `Except.error e` is a raised
exception whose `str` is `e`. -/

structure NetEnv where
  ytdlpInfo : String → Except String YtInfo
  ytdlpStreamInfo : String → Except String YtInfo
  embedPage : String → Except String String
  streamOk : String → Except String Unit
  hostUrl : String
  cookieExists : Bool

/-- The `re.search`/`re.sub` scraping of the embed page HTML in
`get_post_data_no_login` (lines 131-178), abstracted as total functions (the
Python originals are total: `re` functions on a `str` do not raise).  The
claims under verification never depend on the extracted values, only on the
control flow around them. -/
structure ParseFns where
  usernameOf : String → Option String
  captionOf : String → Option String
  imageOf : String → Option String
  thumbOf : String → Option String
  videoOf : String → Option String

/-- Substring containment, Python's `needle in hay`. -/
def containsSub (needle : List Char) : List Char → Bool
  | [] => needle.isEmpty
  | c :: rest => (stripLit needle (c :: rest)).isSome || containsSub needle rest

/-- `'video' in html_content.lower() and 'poster=' in html_content.lower()`
(line 131). -/
def htmlIsVideo (html : String) : Bool :=
  let l := html.data.map Char.toLower
  containsSub "video".data l && containsSub "poster=".data l

/-- The outward calls a piece of code performs, in order. -/
inductive Step where
  | ytdlpExtract
  | embedFetch
  | streamFetch
  | cookieCheck
deriving DecidableEq, Repr

/-- Which steps touch the network (`cookieCheck` is a local file test). -/
def isNetworkStep : Step → Bool
  | .cookieCheck => false
  | _ => true

/-- `base_url = request.host_url.rstrip('/')`. -/
def rstripSlashes (s : String) : String :=
  String.mk ((s.data.reverse.dropWhile (· = '/')).reverse)

/-- ASCII word character, the `\w` class of the `#(\w+)`/`@(\w+)` patterns
(modelled for ASCII text; the claims never read the extracted lists). -/
def wordChar (c : Char) : Bool := c.isAlpha || c.isDigit || c = '_'

/-- `re.findall(r'<lead>(\w+)', s)`: every non-overlapping match of a lead
character followed by a maximal non-empty word-character run.  Recursion is
on a fuel that starts at the list length (each step consumes at least one
character, so the fuel never runs out before the list does). -/
def findTagsGo (lead : Char) : Nat → List Char → List String
  | _, [] => []
  | 0, _ :: _ => []
  | fuel + 1, c :: rest =>
    let w := rest.takeWhile wordChar
    if c = lead && !w.isEmpty then
      String.mk w :: findTagsGo lead fuel (rest.drop w.length)
    else
      findTagsGo lead fuel rest

def findTags (lead : Char) (cs : List Char) : List String :=
  findTagsGo lead cs.length cs

/-! ## `extract_media_info` (lines 265-352)

The function's own `try` cannot fail on dict-shaped input (every access is a
defaulted `.get`), so the `except` branch returning the degenerate
`{"error", "urls": {}, "is_video": False, "owner": {}}` dict is
unreachable in the model and not represented. -/

/-- The best-quality mp4 selection of lines 306-323: fold over `formats`,
keeping the format with `ext == 'mp4'` and the greatest `height`
(`fmt.get('height', 0)`), starting from quality `-1`. -/
def bestMp4 (fmts : List YtFmt) : Option YtFmt :=
  (fmts.foldl
    (fun (acc : Option YtFmt × Int) fmt =>
      if fmt.ext = some "mp4" ∧ fmt.height.getD 0 > acc.2
        then (some fmt, fmt.height.getD 0) else acc)
    (Option.none, -1)).1

def extractMediaInfo (m : YtMedia) : PyDict :=
  let isVideo := m.ext = some "mp4"
  let description := m.description.getD ""
  let base : PyDict :=
    [("id", .str (m.id.getD "")),
     ("title", .str (m.title.getD "")),
     ("description", .str description),
     ("is_video", .bool isVideo),
     ("upload_date", .str (m.uploadDate.getD "")),
     ("view_count", .int (m.viewCount.getD 0)),
     ("like_count", .int (m.likeCount.getD 0)),
     ("comment_count", .int (m.commentCount.getD 0)),
     ("duration", if isVideo then (m.duration.elim PyVal.none PyVal.int) else PyVal.none),
     ("urls", .dict []),
     ("owner", .dict
       [("username", .str (m.uploader.getD "")),
        ("uploader_id", .str (m.uploaderId.getD "")),
        ("uploader_url", .str (m.uploaderUrl.getD ""))])]
  -- hashtags/mentions: `re.findall` on the description when truthy, else []
  let base := dictSet base "hashtags" (.list ((findTags '#' description.data).map .str))
  let base := dictSet base "mentions" (.list ((findTags '@' description.data).map .str))
  -- media URLs (lines 304-340); `urls` starts empty, updates in source order
  let urls : PyDict :=
    if isVideo then
      let u1 : PyDict :=
        match m.formats with
        | some fmts =>
          if !fmts.isEmpty then
            match bestMp4 fmts with
            | some best => dictSet [] "video" (pyOptStr best.url)
            | Option.none => []
          else []
        | Option.none => []
      let u2 := match m.url with
        | some u => dictSet u1 "video" (.str u)
        | Option.none => u1
      match m.thumbnail with
      | some t => dictSet u2 "thumbnail" (.str t)
      | Option.none => u2
    else
      let u1 : PyDict := match m.url with
        | some u => dictSet [] "image" (.str u)
        | Option.none => []
      match m.thumbnail with
      | some t => dictSet u1 "thumbnail" (.str t)
      | Option.none => u1
  dictSet base "urls" (.dict urls)

/-! ## The two resolver strategies -/

/-- `get_post_data_no_login` (lines 93-185).  The whole body runs inside
`try`; a raised exception `e` yields `(None, f"Error: {str(e)}")`.  The
`ValueError` a bracketed netloc raises inside `extract_shortcode_from_url`
is caught the same way (its message is CPython's `"Invalid IPv6 URL"`). -/
def getPostDataNoLogin (env : NetEnv) (pf : ParseFns) (url : String) :
    (Option PyDict × Option String) × List Step :=
  match extractShortcode url with
  | Option.none => ((Option.none, some "Error: Invalid IPv6 URL"), [])
  | some shortcode =>
    match env.embedPage ("https://www.instagram.com/p/" ++ shortcode ++ "/embed/") with
    | .error e => ((Option.none, some ("Error: " ++ e)), [.embedFetch])
    | .ok html =>
      let isVideo := htmlIsVideo html
      let d : PyDict := [("shortcode", .str shortcode), ("urls", .dict [])]
      let d := dictSet d "is_video" (.bool isVideo)
      let d := match pf.usernameOf html with
        | some username =>
          dictSet d "owner" (.dict
            [("username", .str username),
             ("profile_url", .str ("https://www.instagram.com/" ++ username ++ "/"))])
        | Option.none => d
      let d := match pf.captionOf html with
        | some caption => dictSet d "caption" (.str caption)
        | Option.none => d
      let baseUrl := rstripSlashes env.hostUrl
      let urls : PyDict := []
      let urls := dictSet urls "embed"
        (.str ("https://www.instagram.com/p/" ++ shortcode ++ "/embed/"))
      let urls := dictSet urls "instagram"
        (.str ("https://www.instagram.com/p/" ++ shortcode ++ "/"))
      let urls := dictSet urls "download"
        (.str (baseUrl ++ "/api/media/stream/" ++ shortcode))
      let urls := match pf.imageOf html with
        | some u => dictSet urls "image" (.str u)
        | Option.none => urls
      let urls := match pf.thumbOf html with
        | some u => dictSet urls "thumbnail" (.str u)
        | Option.none => urls
      let urls := if isVideo then
          match pf.videoOf html with
          | some u => dictSet urls "video" (.str u)
          | Option.none => urls
        else urls
      ((some (dictSet d "urls" (.dict urls)), Option.none), [.embedFetch])

/-- `post_data["urls"][k] = v`: update the nested urls dict in place (the
`_ => d` arm is unreachable in the yt-dlp strategy, whose `urls` entry is
always a dict; see `extractMediaInfo_urls`). -/
def setUrlIn (d : PyDict) (k v : String) : PyDict :=
  match dictGet d "urls" with
  | some (.dict u) => dictSet d "urls" (.dict (dictSet u k (.str v)))
  | _ => d

/-- The body of `get_post_data_ytdlp` (lines 188-263), before the
`@retry_with_backoff()` decorator.  The body never lets an exception escape:
its `try` covers everything and the `except` returns
`(None, f"yt-dlp error: {str(e)}")`; the `raise Exception("No entries found
in carousel")` of line 229 is caught by that same `except`. -/
def getPostDataYtdlpInner (env : NetEnv) (url : String) :
    (Option PyDict × Option String) × List Step :=
  match extractShortcode url with
  | Option.none => ((Option.none, some "yt-dlp error: Invalid IPv6 URL"), [])
  | some shortcode =>
    -- line 197: os.path.exists('cookie.txt'); then the extract_info call
    match env.ytdlpInfo url with
    | .error e => ((Option.none, some ("yt-dlp error: " ++ e)),
        [.cookieCheck, .ytdlpExtract])
    | .ok info =>
      let build : Option PyDict :=
        if info.typ = some "playlist" then
          match info.entries.getD [] with
          | [] => Option.none
          | e0 :: es =>
            -- carousel: main data = first entry, plus the carousel fields
            let d := extractMediaInfo e0
            let d := dictSet d "is_carousel" (.bool true)
            let d := dictSet d "carousel_items"
              (.list (((e0 :: es).map extractMediaInfo).map PyVal.dict))
            some d
        else
          some (dictSet (extractMediaInfo info.media) "is_carousel" (.bool false))
      match build with
      | Option.none =>
        ((Option.none, some "yt-dlp error: No entries found in carousel"),
          [.cookieCheck, .ytdlpExtract])
      | some d =>
        let d := setUrlIn d "instagram"
          ("https://www.instagram.com/p/" ++ shortcode ++ "/")
        let d := dictSet d "shortcode" (.str shortcode)
        let baseUrl := rstripSlashes env.hostUrl
        let d := setUrlIn d "download" (baseUrl ++ "/api/media/stream/" ++ shortcode)
        ((some d, Option.none), [.cookieCheck, .ytdlpExtract])

/-- `get_post_data_ytdlp` as called: the inner body wrapped by
`@retry_with_backoff()`.  The body returns normally on every input, so the
wrapper's first iteration returns its value. -/
def getPostDataYtdlp (env : NetEnv) (url : String) :
    (Option PyDict × Option String) × List Step :=
  match (retryDefault (fun _ => CallOutcome.ok (getPostDataYtdlpInner env url))).result with
  | .ret a => a
  | _ => ((Option.none, Option.none), [])

theorem getPostDataYtdlp_eq_inner (env : NetEnv) (url : String) :
    getPostDataYtdlp env url = getPostDataYtdlpInner env url := rfl

/-! ## HTTP responses and endpoints -/

inductive Body where
  | json (v : PyVal)
  | mediaStream (contentType : String)
  | htmlText (s : String)
  | errorPage

structure Resp where
  code : Nat
  body : Body

/-- Flask's default 500 page for an unhandled exception (an HTML page, not
JSON). -/
def crashResp : Resp := ⟨500, .errorPage⟩

/-- Whether a response is a JSON body that has the given key. -/
def jsonHasKey (r : Resp) (k : String) : Bool :=
  match r.body with
  | .json (.dict kvs) => hasKey kvs k
  | _ => false

/-- Whether a response carries a JSON body at all. -/
def isJsonBody (r : Resp) : Bool :=
  match r.body with
  | .json _ => true
  | _ => false

/-- `stream_media` (lines 354-384): open the upstream request (and
`raise_for_status`), then relay chunks; a failure before streaming begins is
`jsonify({"error": str(e)}), 500`. -/
def streamMedia (env : NetEnv) (url contentType : String) : Resp × List Step :=
  match env.streamOk url with
  | .ok _ => (⟨200, .mediaStream contentType⟩, [.streamFetch])
  | .error e => (⟨500, .json (.dict [("error", .str e)])⟩, [.streamFetch])

/-- Lines 543-562 of `/api/data`: the post-processing of a strategy result
that was not accompanied by a truthy error.  `post_data.get('urls', {})`
(line 550) raises `AttributeError` when `post_data` is `None`, and
`post_data['urls']['download'] = ...` (line 556) raises `TypeError` when the
`urls` value is not a dict — both surface as Flask's error page. -/
def finishData (env : NetEnv) (pd : Option PyDict) (steps : List Step) :
    Resp × List Step :=
  match pd with
  | Option.none => (crashResp, steps)
  | some d =>
    if truthyVal (.dict d) ∧ hasKey d "shortcode" = true ∧ hasKey d "urls" = true then
      match dictGet d "urls" with
      | some (.dict u) =>
        let shortcode := pyStr ((dictGet d "shortcode").getD .none)
        let d' := dictSet d "urls" (.dict (dictSet u "download"
          (.str (rstripSlashes env.hostUrl ++ "/api/media/stream/" ++ shortcode))))
        (⟨200, .json (.dict [("status", .str "success"), ("data", .dict d')])⟩, steps)
      | _ => (crashResp, steps)
    else
      (⟨200, .json (.dict [("status", .str "success"), ("data", .dict d)])⟩, steps)

/-- `/api/data` (`get_data`, lines 511-562). -/
def getData (env : NetEnv) (pf : ParseFns) (urlParam : Option String) :
    Resp × List Step :=
  if truthyOS urlParam = false then
    (⟨400, .json (.dict [("error", .str "URL parameter is required")])⟩, [])
  else
    let url := urlParam.getD ""
    if validInstaUrl url then
      let r1 := getPostDataYtdlp env url
      if truthyOS r1.1.2 then
        let r2 := getPostDataNoLogin env pf url
        if truthyOS r2.1.2 then
          (⟨500, .json (.dict
            [("status", .str "error"),
             ("error", .str (r2.1.2.getD "")),
             ("message", .str "Failed to extract data from Instagram."),
             ("status_code", .str "error")])⟩, r1.2 ++ r2.2)
        else finishData env r2.1.1 (r1.2 ++ r2.2)
      else finishData env r1.1.1 r1.2
    else
      (⟨400, .json (.dict [("error", .str "Invalid Instagram URL")])⟩, [])

/-- Lines 595-606 of `/api/direct-data`: add the download URL (using the
endpoint's own `shortcode` variable) and answer; `post_data.get` on `None`
(line 600) raises. -/
def finishDirect (env : NetEnv) (shortcode : String) (pd : Option PyDict)
    (steps : List Step) : Resp × List Step :=
  match pd with
  | Option.none => (crashResp, steps)
  | some d =>
    if truthyVal (.dict d) ∧ hasKey d "urls" = true then
      match dictGet d "urls" with
      | some (.dict u) =>
        let d' := dictSet d "urls" (.dict (dictSet u "download"
          (.str (rstripSlashes env.hostUrl ++ "/api/media/stream/" ++ shortcode))))
        (⟨200, .json (.dict [("status", .str "success"), ("data", .dict d')])⟩, steps)
      | _ => (crashResp, steps)
    else
      (⟨200, .json (.dict [("status", .str "success"), ("data", .dict d)])⟩, steps)

/-- `/api/direct-data` (`get_direct_data`, lines 564-606).
`extract_shortcode_from_url` runs outside any `try` here (line 580): a
`ValueError` from `urlparse` becomes Flask's error page. -/
def getDirectData (env : NetEnv) (pf : ParseFns) (urlParam : Option String) :
    Resp × List Step :=
  if truthyOS urlParam = false then
    (⟨400, .json (.dict [("error", .str "URL parameter is required")])⟩, [])
  else
    let url := urlParam.getD ""
    if validInstaUrl url then
      match extractShortcode url with
      | Option.none => (crashResp, [])
      | some shortcode =>
        let r1 := getPostDataYtdlp env url
        if truthyOS r1.1.2 then
          let r2 := getPostDataNoLogin env pf url
          if truthyOS r2.1.2 then
            (⟨500, .json (.dict
              [("status", .str "error"), ("error", .str (r2.1.2.getD ""))])⟩,
              r1.2 ++ r2.2)
          else finishDirect env shortcode r2.1.1 (r1.2 ++ r2.2)
        else finishDirect env shortcode r1.1.1 r1.2
    else
      (⟨400, .json (.dict [("error", .str "Invalid Instagram URL")])⟩, [])

/-- Combined audio+video format selection of lines 437-456 / 695-714: fold
over `formats`, keeping the mp4 with both codecs and the greatest height. -/
def bestCombined (fmts : List YtFmt) : Option YtFmt :=
  (fmts.foldl
    (fun (acc : Option YtFmt × Int) fmt =>
      if fmt.ext = some "mp4" ∧ fmt.acodec ≠ some "none" ∧
          fmt.vcodec ≠ some "none" ∧ fmt.height.getD 0 > acc.2
        then (some fmt, fmt.height.getD 0) else acc)
    (Option.none, -1)).1

/-- The media URL / content-type selection of the streaming endpoints
(lines 424-496, duplicated verbatim at lines 682-754). -/
def chooseMediaUrl (m : YtMedia) : Option String × String :=
  if m.ext = some "mp4" then
    let ct := "video/mp4"
    if truthyOS m.url = true ∧ m.acodec ≠ some "none" ∧ m.vcodec ≠ some "none" then
      (m.url, ct)
    else
      match m.formats with
      | some fmts =>
        if !fmts.isEmpty then
          match bestCombined fmts with
          | some f => (f.url, ct)
          | Option.none =>
            match m.requestedFormats with
            | some reqs =>
              match reqs.find? (fun f => f.vcodec != some "none") with
              | some f => (f.url, ct)
              | Option.none => (m.url, ct)
            | Option.none =>
              match bestMp4 fmts with
              | some f => (f.url, ct)
              | Option.none => (m.url, ct)
        else (m.url, ct)
      | Option.none => (m.url, ct)
  else (m.url, "image/jpeg")

/-- `media_info = info['entries'][0]` for a non-empty carousel, else the
info dict itself (lines 418-422 / 676-680). -/
def pickMedia (info : YtInfo) : YtMedia :=
  if info.typ = some "playlist" ∧ info.entries.getD [] ≠ [] then
    (info.entries.getD []).headD info.media
  else info.media

/-- The selection-then-stream part shared by the streaming endpoints:
`if not media_url: ... 500`; else `stream_media(media_url, content_type)`. -/
def downloadFlow (env : NetEnv) (info : YtInfo) : Resp × List Step :=
  let m := pickMedia info
  let mu := (chooseMediaUrl m).1
  if truthyOS mu then
    streamMedia env (mu.getD "") (chooseMediaUrl m).2
  else
    (⟨500, .json (.dict [("error", .str "No media URL found")])⟩, [])

/-- `/api/download` (`download_media`, lines 634-767): everything after
validation runs in one `try`; any exception is `jsonify({"error": str(e)}), 500`. -/
def downloadMedia (env : NetEnv) (urlParam : Option String) : Resp × List Step :=
  if truthyOS urlParam = false then
    (⟨400, .json (.dict [("error", .str "URL parameter is required")])⟩, [])
  else
    let url := urlParam.getD ""
    if validInstaUrl url then
      match extractShortcode url with
      | Option.none =>
        (⟨500, .json (.dict [("error", .str "Invalid IPv6 URL")])⟩, [])
      | some _ =>
        match env.ytdlpStreamInfo url with
        | .error e =>
          (⟨500, .json (.dict [("error", .str e)])⟩, [.cookieCheck, .ytdlpExtract])
        | .ok info =>
          let r := downloadFlow env info
          (r.1, [.cookieCheck, .ytdlpExtract] ++ r.2)
    else
      (⟨400, .json (.dict [("error", .str "Invalid Instagram URL")])⟩, [])

/-- `/api/media/stream/<shortcode>` (`stream_media_by_shortcode`,
lines 386-509): same selection over the URL built from the shortcode. -/
def streamByShortcode (env : NetEnv) (shortcode : String) : Resp × List Step :=
  match env.ytdlpStreamInfo ("https://www.instagram.com/p/" ++ shortcode ++ "/") with
  | .error e =>
    (⟨500, .json (.dict [("error", .str e)])⟩, [.cookieCheck, .ytdlpExtract])
  | .ok info =>
    let r := downloadFlow env info
    (r.1, [.cookieCheck, .ytdlpExtract] ++ r.2)

/-- `/api/embed/<shortcode>` (`get_embed`, lines 608-632). -/
def getEmbed (env : NetEnv) (shortcode : String) : Resp × List Step :=
  match env.embedPage ("https://www.instagram.com/p/" ++ shortcode ++ "/embed/") with
  | .ok html => (⟨200, .htmlText html⟩, [.embedFetch])
  | .error e => (⟨500, .json (.dict [("error", .str e)])⟩, [.embedFetch])

/-- `/health` (`health_check`, lines 770-779): one local cookie-file test,
then a constant-shape JSON answer. -/
def healthCheck (cookieExists : Bool) : Resp × List Step :=
  (⟨200, .json (.dict
    [("status", .str "ok"),
     ("version", .str "2.0.0"),
     ("using_ytdlp", .bool true),
     ("cookie_file", .bool cookieExists)])⟩, [.cookieCheck])

/-- `/` (`index`, lines 782-1014): the static control panel; the body is
represented by the login-status line interpolated into the page. -/
def indexPage (cookieExists : Bool) : Resp × List Step :=
  (⟨200, .htmlText (if cookieExists then "Using cookies for authentication"
    else "Running in login-less mode")⟩, [.cookieCheck])

/-! ## List lemmas for the urlparse proofs -/

theorem takeWhile_append_all {α : Type} (p : α → Bool) (a b : List α)
    (h : ∀ c ∈ a, p c = true) :
    (a ++ b).takeWhile p = a ++ b.takeWhile p := by
  induction a with
  | nil => simp
  | cons c a ih =>
    rw [List.cons_append, List.takeWhile_cons_of_pos (h c (by simp)),
      ih (fun x hx => h x (by simp [hx])), List.cons_append]

theorem dropWhile_append_all {α : Type} (p : α → Bool) (a b : List α)
    (h : ∀ c ∈ a, p c = true) :
    (a ++ b).dropWhile p = b.dropWhile p := by
  induction a with
  | nil => simp
  | cons c a ih =>
    rw [List.cons_append, List.dropWhile_cons_of_pos (h c (by simp)),
      ih (fun x hx => h x (by simp [hx]))]

theorem takeWhile_append_stop {α : Type} (p : α → Bool) (a b : List α)
    (h : a.all p = false) :
    (a ++ b).takeWhile p = a.takeWhile p ∧
    (a ++ b).dropWhile p = a.dropWhile p ++ b := by
  induction a with
  | nil => simp at h
  | cons c a ih =>
    by_cases hc : p c = true
    · simp only [List.all_cons, hc, Bool.true_and] at h
      obtain ⟨h1, h2⟩ := ih h
      rw [List.cons_append, List.takeWhile_cons_of_pos hc,
        List.takeWhile_cons_of_pos hc, h1, List.dropWhile_cons_of_pos hc,
        List.dropWhile_cons_of_pos hc, h2]
      exact ⟨rfl, rfl⟩
    · rw [List.cons_append, List.takeWhile_cons_of_neg hc,
        List.takeWhile_cons_of_neg hc, List.dropWhile_cons_of_neg hc,
        List.dropWhile_cons_of_neg hc, List.cons_append]
      exact ⟨rfl, rfl⟩

theorem dropWhile_is_suffix {α : Type} (p : α → Bool) (l : List α) :
    l.dropWhile p <:+ l := by
  induction l with
  | nil => exact List.nil_suffix
  | cons c l ih =>
    by_cases hc : p c = true
    · rw [List.dropWhile_cons_of_pos hc]
      exact ih.trans (List.suffix_cons c l)
    · rw [List.dropWhile_cons_of_neg hc]

theorem getLast?_suffix_ne {α : Type} {l t : List α} (c : α)
    (h : l.getLast? ≠ some c) (hs : t <:+ l) : t.getLast? ≠ some c := by
  obtain ⟨u, rfl⟩ := hs
  intro hc
  apply h
  rw [List.getLast?_append, hc]
  rfl

theorem findColon_eq_none {cs : List Char} :
    findColon cs = Option.none ↔ ∀ c ∈ cs, c ≠ ':' := by
  induction cs with
  | nil => simp [findColon]
  | cons c cs ih =>
    rw [findColon]
    by_cases hc : c = ':'
    · subst hc
      simp
    · rw [if_neg hc, Option.map_eq_none', ih]
      simp only [List.mem_cons]
      constructor
      · intro h x hx
        rcases hx with rfl | hx
        · exact hc
        · exact h x hx
      · intro h x hx
        exact h x (Or.inr hx)

theorem findColon_append_some {a : List Char} (b : List Char) {i : Nat}
    (h : findColon a = some i) : findColon (a ++ b) = some i := by
  induction a generalizing i with
  | nil => rw [findColon] at h; cases h
  | cons c a ih =>
    rw [findColon] at h
    rw [List.cons_append, findColon]
    by_cases hc : c = ':'
    · rw [if_pos hc] at h ⊢
      exact h
    · rw [if_neg hc] at h ⊢
      cases hfc : findColon a with
      | none => rw [hfc] at h; simp at h
      | some j =>
        rw [hfc] at h
        rw [ih hfc]
        exact h

theorem findColon_lt_length {cs : List Char} {i : Nat}
    (h : findColon cs = some i) : i < cs.length := by
  induction cs generalizing i with
  | nil => rw [findColon] at h; cases h
  | cons c cs ih =>
    rw [findColon] at h
    by_cases hc : c = ':'
    · rw [if_pos hc] at h
      cases h
      simp
    · rw [if_neg hc] at h
      cases hfc : findColon cs with
      | none => rw [hfc] at h; simp at h
      | some j =>
        rw [hfc] at h
        simp only [Option.map_some', Option.some.injEq] at h
        have hj := ih hfc
        simp only [List.length_cons]
        omega

theorem findColon_lit (a b : List Char) (h : ∀ c ∈ a, c ≠ ':') :
    findColon (a ++ ':' :: b) = some a.length := by
  induction a with
  | nil => simp [findColon]
  | cons c a ih =>
    have hc : c ≠ ':' := h c (by simp)
    rw [List.cons_append, findColon, if_neg hc,
      ih (fun x hx => h x (by simp [hx]))]
    rfl

theorem splitAtLastSlash_eq_none (ys : List Char) (h : ∀ c ∈ ys, c ≠ '/') :
    splitAtLastSlash ys = Option.none := by
  induction ys with
  | nil => rfl
  | cons c ys ih =>
    rw [splitAtLastSlash, ih (fun x hx => h x (by simp [hx])),
      if_neg (h c (by simp))]

theorem splitAtLastSlash_append (xs ys : List Char) (h : ∀ c ∈ ys, c ≠ '/') :
    splitAtLastSlash (xs ++ '/' :: ys) = some (xs, ys) := by
  induction xs with
  | nil =>
    rw [List.nil_append, splitAtLastSlash, splitAtLastSlash_eq_none ys h, if_pos rfl]
  | cons x xs ih =>
    rw [List.cons_append, splitAtLastSlash, ih]

theorem takeUntilChar_eq_self (k : Char) (cs : List Char)
    (h : ∀ c ∈ cs, c ≠ k) : takeUntilChar k cs = cs := by
  induction cs with
  | nil => rfl
  | cons c cs ih =>
    rw [takeUntilChar, List.takeWhile_cons_of_pos (by simp [h c (by simp)])]
    rw [takeUntilChar] at ih
    rw [ih (fun x hx => h x (by simp [hx]))]

/-! ## Dict lemmas -/

theorem dictGet_dictSet_self (d : PyDict) (k : String) (v : PyVal) :
    dictGet (dictSet d k v) k = some v := by
  induction d with
  | nil => simp [dictSet, dictGet]
  | cons kv d ih =>
    obtain ⟨k1, v1⟩ := kv
    by_cases hk : k1 = k
    · subst hk
      simp [dictSet, dictGet]
    · simp [dictSet, dictGet, hk, ih]

theorem dictGet_dictSet_ne (d : PyDict) (k k' : String) (v : PyVal)
    (h : k' ≠ k) : dictGet (dictSet d k v) k' = dictGet d k' := by
  induction d with
  | nil => simp [dictSet, dictGet, Ne.symm h]
  | cons kv d ih =>
    obtain ⟨k1, v1⟩ := kv
    by_cases hk : k1 = k
    · subst hk
      simp [dictSet, dictGet, Ne.symm h]
    · by_cases hk' : k1 = k'
      · subst hk'
        simp [dictSet, dictGet, hk]
      · simp [dictSet, dictGet, hk, hk', ih]

/-! ## `urlparse` on well-formed inputs -/

theorem headD_append_of_ne_nil {α : Type} (a b : List α) (d : α) (h : a ≠ []) :
    (a ++ b).headD d = a.headD d := by
  cases a with
  | nil => exact absurd rfl h
  | cons x xs => rfl

theorem splitScheme_lit (sch rest : List Char) (h1 : sch ≠ [])
    (h2 : (sch.headD ' ').isAlpha = true)
    (h3 : (sch.drop 1).all isSchemeChar = true)
    (h4 : ∀ c ∈ sch, c ≠ ':') :
    splitScheme (sch ++ ':' :: rest) = (sch.map Char.toLower, rest) := by
  rw [splitScheme, findColon_lit sch rest h4]
  have htake : (sch ++ ':' :: rest).take sch.length = sch :=
    List.take_left sch (':' :: rest)
  have hdrop : (sch ++ ':' :: rest).drop (sch.length + 1) = rest := by
    rw [show sch ++ ':' :: rest = (sch ++ [':']) ++ rest by simp,
      show sch.length + 1 = (sch ++ [':']).length by simp, List.drop_left]
  have hcond : 0 < sch.length ∧
      ((sch ++ ':' :: rest).headD ' ').isAlpha = true ∧
      (((sch ++ ':' :: rest).take sch.length).drop 1).all isSchemeChar = true := by
    refine ⟨List.length_pos.mpr h1, ?_, ?_⟩
    · rw [headD_append_of_ne_nil sch (':' :: rest) ' ' h1]
      exact h2
    · rw [htake]
      exact h3
  show (if 0 < sch.length ∧ ((sch ++ ':' :: rest).headD ' ').isAlpha = true ∧
        (((sch ++ ':' :: rest).take sch.length).drop 1).all isSchemeChar = true
      then (((sch ++ ':' :: rest).take sch.length).map Char.toLower,
        (sch ++ ':' :: rest).drop (sch.length + 1))
      else ([], sch ++ ':' :: rest)) = (sch.map Char.toLower, rest)
  rw [if_pos hcond, htake, hdrop]

/-- `urlsplit` on a URL of the accepted literal shape: the scheme comes off,
the netloc is `w ++ "instagram.com"` (bracket-free), and the raw path is the
fragment/query-trimmed `/<alt>/<tail>` with tab/CR/LF removed from the tail. -/
theorem urlSchemeAndRaw_parts (sch w a t : List Char)
    (hhd : ∃ r, sch = 'h' :: r)
    (halpha : (sch.headD ' ').isAlpha = true)
    (hschars : (sch.drop 1).all isSchemeChar = true)
    (hcolon : ∀ c ∈ sch, c ≠ ':')
    (hstrn : ∀ c ∈ sch, isTabCrLf c = false)
    (hwn : ∀ c ∈ w, netlocDelim c = false ∧ isTabCrLf c = false)
    (hwb : '[' ∉ w ∧ ']' ∉ w)
    (hat : ∀ c ∈ a, isTabCrLf c = false) :
    urlSchemeAndRaw (String.mk
        (sch ++ "://".data ++ w ++ "instagram.com/".data ++ a ++ "/".data ++ t)) =
      some (sch.map Char.toLower,
        takeUntilChar '?' (takeUntilChar '#'
          ('/' :: (a ++ '/' :: t.filter (fun c => !isTabCrLf c))))) := by
  have hf : ∀ (l : List Char), (∀ c ∈ l, isTabCrLf c = false) →
      l.filter (fun c => !isTabCrLf c) = l := by
    intro l h
    apply List.filter_eq_self.mpr
    intro c hc
    simp [h c hc]
  obtain ⟨schtl, rfl⟩ := hhd
  -- sanitization: the leading 'h' is not strippable; no part of the literal
  -- prefix contains tab/CR/LF
  have hsan : sanitizeUrl
      (('h' :: schtl) ++ "://".data ++ w ++ "instagram.com/".data ++ a ++ "/".data ++ t) =
      ('h' :: schtl) ++ "://".data ++ w ++ "instagram.com/".data ++ a ++ "/".data
        ++ t.filter (fun c => !isTabCrLf c) := by
    rw [sanitizeUrl]
    have hdw0 : (('h' :: schtl) ++ "://".data ++ w ++ "instagram.com/".data ++ a
        ++ "/".data ++ t).dropWhile (fun c => c ≤ ' ')
        = ('h' :: schtl) ++ "://".data ++ w ++ "instagram.com/".data ++ a ++ "/".data ++ t := by
      rw [show (('h' :: schtl) ++ "://".data ++ w ++ "instagram.com/".data ++ a
          ++ "/".data ++ t)
        = 'h' :: (schtl ++ ("://".data ++ (w ++ ("instagram.com/".data
          ++ (a ++ ("/".data ++ t)))))) by simp [List.append_assoc]]
      rw [List.dropWhile_cons_of_neg (by decide)]
    rw [hdw0]
    rw [show (('h' :: schtl) ++ "://".data ++ w ++ "instagram.com/".data ++ a
        ++ "/".data ++ t)
      = ('h' :: schtl) ++ ("://".data ++ (w ++ ("instagram.com/".data
        ++ (a ++ ("/".data ++ t))))) by simp [List.append_assoc]]
    simp only [List.filter_append]
    rw [hf ('h' :: schtl) hstrn,
      show ("://".data.filter (fun c => !isTabCrLf c)) = "://".data by decide,
      hf w (fun c hc => (hwn c hc).2),
      show ("instagram.com/".data.filter (fun c => !isTabCrLf c)) = "instagram.com/".data
        by decide,
      hf a hat,
      show ("/".data.filter (fun c => !isTabCrLf c)) = "/".data by decide]
    simp [List.append_assoc]
  -- regroup around the scheme colon
  have hshape : ('h' :: schtl) ++ "://".data ++ w ++ "instagram.com/".data ++ a ++ "/".data
        ++ t.filter (fun c => !isTabCrLf c)
      = ('h' :: schtl) ++ ':' ::
        ('/' :: '/' :: (w ++ ("instagram.com".data ++ '/' ::
          (a ++ '/' :: t.filter (fun c => !isTabCrLf c))))) := by
    simp only [List.append_assoc, List.cons_append]
    rfl
  rw [urlSchemeAndRaw]
  rw [show (String.mk (('h' :: schtl) ++ "://".data ++ w ++ "instagram.com/".data
      ++ a ++ "/".data ++ t)).data
    = ('h' :: schtl) ++ "://".data ++ w ++ "instagram.com/".data ++ a ++ "/".data ++ t
    from rfl]
  rw [hsan, hshape,
    splitScheme_lit ('h' :: schtl) _ (by simp) halpha hschars hcolon]
  -- the netloc split: stripLit "//" succeeds, then takeWhile/dropWhile stop
  -- at the '/' closing the host
  have hstrip : stripLit "//".data
      ('/' :: '/' :: (w ++ ("instagram.com".data ++ '/' ::
        (a ++ '/' :: t.filter (fun c => !isTabCrLf c)))))
      = some (w ++ ("instagram.com".data ++ '/' ::
        (a ++ '/' :: t.filter (fun c => !isTabCrLf c)))) := rfl
  simp only [hstrip]
  have htw : (w ++ ("instagram.com".data ++ '/' ::
      (a ++ '/' :: t.filter (fun c => !isTabCrLf c)))).takeWhile
      (fun c => !netlocDelim c) = w ++ "instagram.com".data := by
    rw [takeWhile_append_all _ w _ (fun c hc => by simp [(hwn c hc).1]),
      takeWhile_append_all _ "instagram.com".data _ (by decide),
      List.takeWhile_cons_of_neg (by decide), List.append_nil]
  have hdw : (w ++ ("instagram.com".data ++ '/' ::
      (a ++ '/' :: t.filter (fun c => !isTabCrLf c)))).dropWhile
      (fun c => !netlocDelim c) = '/' :: (a ++ '/' :: t.filter (fun c => !isTabCrLf c)) := by
    rw [dropWhile_append_all _ w _ (fun c hc => by simp [(hwn c hc).1]),
      dropWhile_append_all _ "instagram.com".data _ (by decide),
      List.dropWhile_cons_of_neg (by decide)]
  simp only [htw, hdw]
  rw [if_neg (by simp [hwb.1, hwb.2])]

/-! ## Appending a trailing slash, stage by stage -/

theorem takeWhile_eq_self_of_all {α : Type} (p : α → Bool) (l : List α)
    (h : l.all p = true) : l.takeWhile p = l := by
  have := takeWhile_append_all p l []
    (fun c hc => by rw [List.all_eq_true] at h; exact h c hc)
  simpa using this

theorem dropWhile_eq_nil_of_all {α : Type} (p : α → Bool) (l : List α)
    (h : l.all p = true) : l.dropWhile p = [] := by
  have := dropWhile_append_all p l []
    (fun c hc => by rw [List.all_eq_true] at h; exact h c hc)
  simpa using this

theorem all_eq_false_of_mem {α : Type} (p : α → Bool) (l : List α) (c : α)
    (hc : c ∈ l) (hp : p c = false) : l.all p = false := by
  cases hb : l.all p with
  | false => rfl
  | true =>
    rw [List.all_eq_true] at hb
    rw [hb c hc] at hp
    cases hp

/-- Sanitization commutes with appending a trailing slash. -/
theorem sanitize_append_slash (cs : List Char) :
    sanitizeUrl (cs ++ ['/']) = sanitizeUrl cs ++ ['/'] := by
  rw [sanitizeUrl, sanitizeUrl]
  have hdw : (cs ++ ['/']).dropWhile (fun c => c ≤ ' ')
      = cs.dropWhile (fun c => c ≤ ' ') ++ ['/'] := by
    induction cs with
    | nil => simp [List.dropWhile, decide_eq_true_eq]
    | cons c cs ih =>
      by_cases hc : decide (c ≤ ' ') = true
      · simp [List.cons_append, List.dropWhile_cons, hc, ih]
      · simp [List.cons_append, List.dropWhile_cons, hc]
  rw [hdw, List.filter_append]
  rfl

/-- The scheme split commutes with appending a trailing slash (the first
colon, and everything the split inspects, is unchanged). -/
theorem splitScheme_append_slash (s : List Char) :
    splitScheme (s ++ ['/']) = ((splitScheme s).1, (splitScheme s).2 ++ ['/']) := by
  cases hfc : findColon s with
  | none =>
    have hfc2 : findColon (s ++ ['/']) = Option.none := by
      rw [findColon_eq_none] at hfc ⊢
      intro c hc
      rcases List.mem_append.mp hc with hc | hc
      · exact hfc c hc
      · simp only [List.mem_singleton] at hc
        subst hc
        decide
    simp [splitScheme, hfc, hfc2]
  | some i =>
    have hlt := findColon_lt_length hfc
    have hfc2 : findColon (s ++ ['/']) = some i := findColon_append_some _ hfc
    have hne : s ≠ [] := by
      intro h
      subst h
      rw [findColon] at hfc
      cases hfc
    have hhead : (s ++ ['/']).headD ' ' = s.headD ' ' :=
      headD_append_of_ne_nil s ['/'] ' ' hne
    have htake : (s ++ ['/']).take i = s.take i :=
      List.take_append_of_le_length (le_of_lt hlt)
    have hdrop : (s ++ ['/']).drop (i + 1) = s.drop (i + 1) ++ ['/'] :=
      List.drop_append_of_le_length hlt
    simp only [splitScheme, hfc, hfc2, hhead, htake, hdrop]
    by_cases hcond : 0 < i ∧ (s.headD ' ').isAlpha = true ∧
        ((s.take i).drop 1).all isSchemeChar = true
    · rw [if_pos hcond, if_pos hcond]
    · rw [if_neg hcond, if_neg hcond]

/-- The part after the scheme is a suffix of the sanitized input. -/
theorem splitScheme_snd_suffix (s : List Char) : (splitScheme s).2 <:+ s := by
  cases hfc : findColon s with
  | none =>
    simp only [splitScheme, hfc]
    exact List.suffix_refl s
  | some i =>
    simp only [splitScheme, hfc]
    split
    · exact List.drop_suffix (i + 1) s
    · exact List.suffix_refl s

/-- A list not ending in `'/'` that does not start with `"//"` still does
not start with `"//"` after a `'/'` is appended. -/
theorem stripSlashes_append_none (r : List Char) (hne : r.getLast? ≠ some '/')
    (h : stripLit "//".data r = Option.none) :
    stripLit "//".data (r ++ ['/']) = Option.none := by
  match r with
  | [] => rfl
  | [c] =>
    have hc : c ≠ '/' := by
      rw [List.getLast?_singleton] at hne
      simpa using hne
    simp [stripLit, hc]
  | c1 :: c2 :: rest =>
    by_cases h1' : c1 = '/'
    · by_cases h2' : c2 = '/'
      · subst h1'
        subst h2'
        rw [show stripLit "//".data ('/' :: '/' :: rest) = some rest from rfl] at h
        cases h
      · simp [stripLit, h1', h2']
    · simp [stripLit, h1']

/-- The fragment split, query split, `;params` split, trailing-slash strip
and final-segment selection together are invariant under one appended
trailing slash, provided the input does not already end in `'/'` and the
params split is a no-op on the original raw path. -/
theorem tailPipeline_append (sc q : List Char) (hq : q.getLast? ≠ some '/')
    (hnoop : splitParams (takeUntilChar '?' (takeUntilChar '#' q)) =
      takeUntilChar '?' (takeUntilChar '#' q)) :
    lastSegment (stripOneSlash (applyParams sc
      (takeUntilChar '?' (takeUntilChar '#' (q ++ ['/']))))) =
    lastSegment (stripOneSlash (applyParams sc
      (takeUntilChar '?' (takeUntilChar '#' q)))) := by
  by_cases hh : '#' ∈ q
  · have hstop : takeUntilChar '#' (q ++ ['/']) = takeUntilChar '#' q :=
      (takeWhile_append_stop _ q ['/']
        (all_eq_false_of_mem _ q '#' hh (by simp))).1
    rw [hstop]
  · have hta : takeUntilChar '#' q = q :=
      takeUntilChar_eq_self '#' q (fun c hc => by rintro rfl; exact hh hc)
    have htb : takeUntilChar '#' (q ++ ['/']) = q ++ ['/'] := by
      apply takeUntilChar_eq_self
      intro c hc
      rcases List.mem_append.mp hc with hc | hc
      · rintro rfl; exact hh hc
      · simp only [List.mem_singleton] at hc
        subst hc
        decide
    rw [hta, htb]
    by_cases hqq : '?' ∈ q
    · have hstop : takeUntilChar '?' (q ++ ['/']) = takeUntilChar '?' q :=
        (takeWhile_append_stop _ q ['/']
          (all_eq_false_of_mem _ q '?' hqq (by simp))).1
      rw [hstop]
    · have hta2 : takeUntilChar '?' q = q :=
        takeUntilChar_eq_self '?' q (fun c hc => by rintro rfl; exact hqq hc)
      have htb2 : takeUntilChar '?' (q ++ ['/']) = q ++ ['/'] := by
        apply takeUntilChar_eq_self
        intro c hc
        rcases List.mem_append.mp hc with hc | hc
        · rintro rfl; exact hqq hc
        · simp only [List.mem_singleton] at hc
          subst hc
          decide
      rw [hta2, htb2]
      rw [hta, hta2] at hnoop
      have hsp : splitParams (q ++ ['/']) = q ++ ['/'] := by
        rw [show q ++ ['/'] = q ++ '/' :: [] from rfl]
        simp only [splitParams, splitAtLastSlash_append q [] (by simp)]
        rfl
      rw [applyParams, applyParams]
      by_cases hup : sc ∈ usesParams
      · rw [if_pos hup, if_pos hup, hnoop, hsp, stripOneSlash, stripOneSlash,
          if_pos (List.getLast?_concat q), List.dropLast_concat, if_neg hq]
      · rw [if_neg hup, if_neg hup, stripOneSlash, stripOneSlash,
          if_pos (List.getLast?_concat q), List.dropLast_concat, if_neg hq]

/-- On every URL the validator accepts, `extract_shortcode_from_url` returns
a value (in particular `urlparse` cannot raise: the netloc of an accepted URL
is the literal bracket-free `[www.]instagram.com`). -/
theorem extractShortcode_isSome_of_valid (url : String)
    (h : validInstaUrl url = true) : ∃ sc, extractShortcode url = some sc := by
  obtain ⟨sch, w, a, t, hs, hw, ha, _ht, hurl⟩ :=
    (validInstaUrl_iff_amendedShape url).mp h
  obtain ⟨d⟩ := url
  rw [show (String.mk d).data = d from rfl] at hurl
  subst hurl
  have hparts := urlSchemeAndRaw_parts sch w a t
    (by rcases hs with rfl | rfl
        · exact ⟨_, rfl⟩
        · exact ⟨_, rfl⟩)
    (by rcases hs with rfl | rfl <;> decide)
    (by rcases hs with rfl | rfl <;> decide)
    (by rcases hs with rfl | rfl <;> decide)
    (by rcases hs with rfl | rfl <;> decide)
    (by rcases hw with rfl | rfl <;> decide)
    (by rcases hw with rfl | rfl <;> decide)
    (by rcases ha with rfl | rfl | rfl <;> decide)
  rw [extractShortcode, urlPath, hparts]
  exact ⟨_, rfl⟩

theorem getLast?_ne_of_all (l : List Char) (c0 : Char) (h : ∀ c ∈ l, c ≠ c0) :
    l.getLast? ≠ some c0 := by
  induction l with
  | nil => simp
  | cons c l ih =>
    cases l with
    | nil =>
      simp only [List.getLast?_singleton, ne_eq, Option.some.injEq]
      exact h c (by simp)
    | cons c' l' =>
      rw [List.getLast?_cons_cons]
      exact ih (fun x hx => h x (by simp [List.mem_cons] at hx ⊢; tauto))

theorem getLast?_append_ne (l : List Char) {seg : List Char} (c0 : Char)
    (hseg : seg ≠ []) (h : ∀ c ∈ seg, c ≠ c0) :
    (l ++ seg).getLast? ≠ some c0 := by
  induction l with
  | nil => simpa using getLast?_ne_of_all seg c0 h
  | cons x l ih =>
    cases hl : l ++ seg with
    | nil => exact absurd (List.append_eq_nil.mp hl).2 hseg
    | cons y ys =>
      rw [List.cons_append, hl, List.getLast?_cons_cons, ← hl]
      exact ih

/-- `extract_shortcode_from_url` on the plain accepted shape
`scheme://[www.]instagram.com/(p|reel|tv)/<seg>[/]` with a clean segment:
the result is exactly the segment. -/
theorem extractShortcode_clean (sch w a seg trail : List Char)
    (hs : SchemeStr sch) (hw : WwwStr w) (ha : AltStr a)
    (hseg : seg ≠ [])
    (hsegc : ∀ c ∈ seg,
      c ≠ '/' ∧ c ≠ '?' ∧ c ≠ '#' ∧ c ≠ ';' ∧ isTabCrLf c = false)
    (htr : trail = [] ∨ trail = ['/']) :
    extractShortcode (String.mk (sch ++ "://".data ++ w ++ "instagram.com/".data
      ++ a ++ "/".data ++ (seg ++ trail))) = some (String.mk seg) := by
  have hparts := urlSchemeAndRaw_parts sch w a (seg ++ trail)
    (by rcases hs with rfl | rfl
        · exact ⟨_, rfl⟩
        · exact ⟨_, rfl⟩)
    (by rcases hs with rfl | rfl <;> decide)
    (by rcases hs with rfl | rfl <;> decide)
    (by rcases hs with rfl | rfl <;> decide)
    (by rcases hs with rfl | rfl <;> decide)
    (by rcases hw with rfl | rfl <;> decide)
    (by rcases hw with rfl | rfl <;> decide)
    (by rcases ha with rfl | rfl | rfl <;> decide)
  have hfil : (seg ++ trail).filter (fun c => !isTabCrLf c) = seg ++ trail := by
    apply List.filter_eq_self.mpr
    intro c hc
    rcases List.mem_append.mp hc with hc | hc
    · simp [(hsegc c hc).2.2.2.2]
    · rcases htr with rfl | rfl
      · simp at hc
      · simp only [List.mem_singleton] at hc
        subst hc
        decide
  have hmem : ∀ c ∈ ('/' :: (a ++ '/' :: (seg ++ trail))),
      c = '/' ∨ c ∈ a ∨ c ∈ seg ∨ c ∈ trail := by
    intro c hc
    simp only [List.mem_cons, List.mem_append] at hc
    tauto
  have htrx : ∀ c ∈ trail, c = '/' := by
    rcases htr with rfl | rfl
    · simp
    · simp
  have ha_hash : ∀ c ∈ a, c ≠ '#' := by
    rcases ha with rfl | rfl | rfl <;> decide
  have ha_q : ∀ c ∈ a, c ≠ '?' := by
    rcases ha with rfl | rfl | rfl <;> decide
  have hhash : ∀ c ∈ ('/' :: (a ++ '/' :: (seg ++ trail))), c ≠ '#' := by
    intro c hc
    rcases hmem c hc with rfl | h | h | h
    · decide
    · exact ha_hash c h
    · exact (hsegc c h).2.2.1
    · rw [htrx c h]
      decide
  have hq : ∀ c ∈ ('/' :: (a ++ '/' :: (seg ++ trail))), c ≠ '?' := by
    intro c hc
    rcases hmem c hc with rfl | h | h | h
    · decide
    · exact ha_q c h
    · exact (hsegc c h).2.1
    · rw [htrx c h]
      decide
  have hup : sch.map Char.toLower ∈ usesParams := by
    rcases hs with rfl | rfl <;> decide
  rw [extractShortcode, urlPath, hparts, hfil, Option.map_some', Option.map_some',
    takeUntilChar_eq_self '#' _ hhash, takeUntilChar_eq_self '?' _ hq,
    applyParams, if_pos hup]
  have hshape : ('/' :: (a ++ '/' :: (seg ++ trail)))
      = (('/' :: a) ++ '/' :: seg) ++ trail := by
    simp
  rw [hshape]
  have hsp : splitAtLastSlash (('/' :: a) ++ '/' :: seg) = some ('/' :: a, seg) :=
    splitAtLastSlash_append _ _ (fun c hc => (hsegc c hc).1)
  rcases htr with rfl | rfl
  · rw [List.append_nil]
    simp only [splitParams, hsp]
    rw [takeUntilChar_eq_self ';' seg (fun c hc => (hsegc c hc).2.2.2.1)]
    have hlast : (('/' :: a) ++ '/' :: seg).getLast? ≠ some '/' := by
      rw [show ('/' :: a) ++ '/' :: seg = (('/' :: a) ++ ['/']) ++ seg by simp]
      exact getLast?_append_ne _ '/' hseg (fun c hc => (hsegc c hc).1)
    rw [stripOneSlash, if_neg hlast]
    simp only [lastSegment, hsp]
  · have hsp2 : splitAtLastSlash ((('/' :: a) ++ '/' :: seg) ++ '/' :: []) =
        some (('/' :: a) ++ '/' :: seg, []) :=
      splitAtLastSlash_append _ _ (by simp)
    simp only [splitParams, hsp2]
    rw [show takeUntilChar ';' [] = [] from rfl]
    rw [stripOneSlash, if_pos (List.getLast?_concat _), List.dropLast_concat]
    simp only [lastSegment, hsp]

theorem truthyOS_some_append (a e : String) (ha : a.data ≠ []) :
    truthyOS (some (a ++ e)) = true := by
  simp only [truthyOS, ne_eq, decide_eq_true_eq]
  intro h
  apply ha
  have := congrArg String.data h
  rw [String.data_append] at this
  exact List.append_eq_nil.mp this |>.1

/-- A valid URL is non-empty. -/
theorem validInstaUrl_ne_empty (url : String) (h : validInstaUrl url = true) :
    truthyOS (some url) = true := by
  simp only [truthyOS, ne_eq, decide_eq_true_eq]
  intro hurl
  subst hurl
  simp [validInstaUrl, optCheck, stripLit] at h

/-- Concrete environments and parsers used to instantiate theorems with
hypotheses. -/
def pf0 : ParseFns :=
  ⟨fun _ => Option.none, fun _ => Option.none, fun _ => Option.none,
   fun _ => Option.none, fun _ => Option.none⟩

/-- Both strategies fail: yt-dlp with a rate-limit-classified message, the
embed fetch with an error as well. -/
def envRL : NetEnv :=
  ⟨fun _ => .error "429 rate limit", fun _ => .error "HTTP Error 500",
   fun _ => .error "please wait a few minutes", fun _ => .ok (),
   "http://localhost:8080/", false⟩

/-- Strategy 1 fails with an auth-classified message, strategy 2 succeeds. -/
def envAuth : NetEnv :=
  ⟨fun _ => .error "Instagram: login required to access this content",
   fun _ => .error "HTTP Error 500",
   fun _ => .ok "<html><body>embed page</body></html>", fun _ => .ok (),
   "http://localhost:8080/", false⟩

/-- The urls entry of `extract_media_info`'s result is always a dict. -/
theorem extractMediaInfo_urls (m : YtMedia) :
    ∃ u, dictGet (extractMediaInfo m) "urls" = some (.dict u) := by
  simp only [extractMediaInfo]
  exact ⟨_, dictGet_dictSet_self _ _ _⟩

/-- The no-login strategy returns `(dict, None)` — with a dict-valued
`urls` entry — or `(None, truthy message)`: never both set, never both
unset. -/
theorem noLogin_pair (env : NetEnv) (pf : ParseFns) (url : String) :
    (∃ d u, (getPostDataNoLogin env pf url).1 = (some d, Option.none) ∧
      dictGet d "urls" = some (.dict u)) ∨
    (∃ e, (getPostDataNoLogin env pf url).1 = (Option.none, some e) ∧
      truthyOS (some e) = true) := by
  cases hsc : extractShortcode url with
  | none =>
    right
    exact ⟨"Error: Invalid IPv6 URL", by simp [getPostDataNoLogin, hsc], by decide⟩
  | some sc =>
    cases hp : env.embedPage ("https://www.instagram.com/p/" ++ sc ++ "/embed/") with
    | error e =>
      right
      exact ⟨"Error: " ++ e, by simp [getPostDataNoLogin, hsc, hp],
        truthyOS_some_append "Error: " e (by decide)⟩
    | ok html =>
      left
      simp only [getPostDataNoLogin, hsc, hp]
      exact ⟨_, _, rfl, dictGet_dictSet_self _ _ _⟩

/-- `setUrlIn` on a dict whose urls entry is a dict: explicit value and a
dict-valued urls entry again. -/
theorem setUrlIn_pres (d : PyDict) (k v : String) {u : PyDict}
    (h : dictGet d "urls" = some (.dict u)) :
    dictGet (setUrlIn d k v) "urls" = some (.dict (dictSet u k (.str v))) := by
  simp only [setUrlIn, h]
  exact dictGet_dictSet_self _ _ _

/-- The final update sequence of the yt-dlp strategy keeps a dict-valued
urls entry. -/
theorem finalUpdates_urls (d : PyDict) (i sc dl : String) {u : PyDict}
    (h : dictGet d "urls" = some (.dict u)) :
    ∃ u', dictGet
      (setUrlIn (dictSet (setUrlIn d "instagram" i) "shortcode" (.str sc)) "download" dl)
      "urls" = some (.dict u') := by
  have h2 := setUrlIn_pres d "instagram" i h
  have h3 : dictGet (dictSet (setUrlIn d "instagram" i) "shortcode" (.str sc)) "urls"
      = some (.dict (dictSet u "instagram" (.str i))) := by
    rw [dictGet_dictSet_ne _ _ _ _ (by decide), h2]
  exact ⟨_, setUrlIn_pres _ "download" dl h3⟩

/-- Same exclusivity (plus the dict-valued urls entry) for the decorated
yt-dlp strategy. -/
theorem ytdlp_pair (env : NetEnv) (url : String) :
    (∃ d u, (getPostDataYtdlp env url).1 = (some d, Option.none) ∧
      dictGet d "urls" = some (.dict u)) ∨
    (∃ e, (getPostDataYtdlp env url).1 = (Option.none, some e) ∧
      truthyOS (some e) = true) := by
  rw [getPostDataYtdlp_eq_inner]
  cases hsc : extractShortcode url with
  | none =>
    right
    exact ⟨"yt-dlp error: Invalid IPv6 URL", by simp [getPostDataYtdlpInner, hsc],
      by decide⟩
  | some sc =>
    cases hi : env.ytdlpInfo url with
    | error e =>
      right
      exact ⟨"yt-dlp error: " ++ e, by simp [getPostDataYtdlpInner, hsc, hi],
        truthyOS_some_append "yt-dlp error: " e (by decide)⟩
    | ok info =>
      by_cases htyp : info.typ = some "playlist"
      · cases hent : info.entries.getD [] with
        | nil =>
          right
          exact ⟨"yt-dlp error: No entries found in carousel",
            by simp [getPostDataYtdlpInner, hsc, hi, htyp, hent], by decide⟩
        | cons e0 es =>
          left
          simp only [getPostDataYtdlpInner, hsc, hi, htyp, hent, if_pos rfl]
          obtain ⟨u0, hu0⟩ := extractMediaInfo_urls e0
          have hd0 : dictGet (dictSet (dictSet (extractMediaInfo e0)
              "is_carousel" (.bool true)) "carousel_items"
              (.list (((e0 :: es).map extractMediaInfo).map PyVal.dict))) "urls"
              = some (.dict u0) := by
            rw [dictGet_dictSet_ne _ _ _ _ (by decide),
              dictGet_dictSet_ne _ _ _ _ (by decide), hu0]
          obtain ⟨u', hu'⟩ := finalUpdates_urls _
            ("https://www.instagram.com/p/" ++ sc ++ "/") sc
            (rstripSlashes env.hostUrl ++ "/api/media/stream/" ++ sc) hd0
          exact ⟨_, u', rfl, hu'⟩
      · left
        simp only [getPostDataYtdlpInner, hsc, hi, htyp, if_neg htyp]
        obtain ⟨u0, hu0⟩ := extractMediaInfo_urls info.media
        have hd0 : dictGet (dictSet (extractMediaInfo info.media)
            "is_carousel" (.bool false)) "urls" = some (.dict u0) := by
          rw [dictGet_dictSet_ne _ _ _ _ (by decide), hu0]
        obtain ⟨u', hu'⟩ := finalUpdates_urls _
          ("https://www.instagram.com/p/" ++ sc ++ "/") sc
          (rstripSlashes env.hostUrl ++ "/api/media/stream/" ++ sc) hd0
        exact ⟨_, u', rfl, hu'⟩

/-- Whenever the shortcode extraction succeeds, the yt-dlp strategy performs
exactly its cookie-file check and one extract_info call. -/
theorem ytdlp_steps (env : NetEnv) (url : String) {sc : String}
    (hsc : extractShortcode url = some sc) :
    (getPostDataYtdlp env url).2 = [Step.cookieCheck, Step.ytdlpExtract] := by
  rw [getPostDataYtdlp_eq_inner]
  cases hi : env.ytdlpInfo url with
  | error e => simp [getPostDataYtdlpInner, hsc, hi]
  | ok info =>
    by_cases htyp : info.typ = some "playlist"
    · cases hent : info.entries.getD [] with
      | nil => simp [getPostDataYtdlpInner, hsc, hi, htyp, hent]
      | cons e0 es => simp [getPostDataYtdlpInner, hsc, hi, htyp, hent]
    · simp [getPostDataYtdlpInner, hsc, hi, htyp]

/-- Whenever the shortcode extraction succeeds, the no-login strategy
performs exactly one embed-page fetch. -/
theorem noLogin_steps (env : NetEnv) (pf : ParseFns) (url : String) {sc : String}
    (hsc : extractShortcode url = some sc) :
    (getPostDataNoLogin env pf url).2 = [Step.embedFetch] := by
  cases hp : env.embedPage ("https://www.instagram.com/p/" ++ sc ++ "/embed/") with
  | error e => simp [getPostDataNoLogin, hsc, hp]
  | ok html => simp [getPostDataNoLogin, hsc, hp]

/-- `finishData` only shapes the response; it adds no outward call. -/
theorem finishData_steps (env : NetEnv) (pd : Option PyDict) (steps : List Step) :
    (finishData env pd steps).2 = steps := by
  cases pd with
  | none => rfl
  | some d =>
    simp only [finishData]
    split
    · split <;> rfl
    · rfl

/-- `finishDirect` only shapes the response; it adds no outward call. -/
theorem finishDirect_steps (env : NetEnv) (sc : String) (pd : Option PyDict)
    (steps : List Step) : (finishDirect env sc pd steps).2 = steps := by
  cases pd with
  | none => rfl
  | some d =>
    simp only [finishDirect]
    split
    · split <;> rfl
    · rfl

/-- With a dict-shaped record whose urls entry is a dict, `finishData`
answers 200 (no crash path is reachable). -/
theorem finishData_code (env : NetEnv) (steps : List Step) {d u : PyDict}
    (h : dictGet d "urls" = some (.dict u)) :
    (finishData env (some d) steps).1.code = 200 := by
  simp only [finishData]
  split
  · rw [h]
  · rfl

/-- Same for `finishDirect`. -/
theorem finishDirect_code (env : NetEnv) (sc : String) (steps : List Step)
    {d u : PyDict} (h : dictGet d "urls" = some (.dict u)) :
    (finishDirect env sc (some d) steps).1.code = 200 := by
  simp only [finishDirect]
  split
  · rw [h]
  · rfl

/-- Every failing answer of the selection-then-stream flow is JSON with an
`error` key. -/
theorem downloadFlow_error_key (env : NetEnv) (info : YtInfo)
    (h : 400 ≤ (downloadFlow env info).1.code) :
    jsonHasKey (downloadFlow env info).1 "error" = true := by
  rw [downloadFlow] at h ⊢
  by_cases hmu : truthyOS (chooseMediaUrl (pickMedia info)).1 = true
  · simp only [hmu, if_true] at h ⊢
    cases hs : env.streamOk ((chooseMediaUrl (pickMedia info)).1.getD "") with
    | ok _ =>
      rw [streamMedia, hs] at h
      simp at h
    | error e =>
      rw [streamMedia, hs]
      simp [jsonHasKey, hasKey, dictGet]
  · simp only [hmu, if_false]
    simp [jsonHasKey, hasKey, dictGet]

/-! # Claims -/

/-- C1, counterexample: with the default configuration and a call that is
rate-limited on every attempt, the waits that occur are 2s and 4s only — the
claimed third wait of 8s never happens (the third and final attempt
re-raises without sleeping). -/
theorem C1_counterexample :
    (retryDefault (fun _ => CallOutcome.exn (α := Unit) true)).sleeps = [2, 4] ∧
    (retryDefault (fun _ => CallOutcome.exn (α := Unit) true)).sleeps ≠ [2, 4, 8] := by
  exact ⟨rfl, by decide⟩

/-- C1 (amended): with defaults `max_retries=3`, `initial_backoff=2`, a call
whose every attempt fails rate-limited is attempted 3 times with the
strictly increasing waits 2s then 4s (sleeping `initial_backoff * 2^(attempt-1)`
after each non-final failed attempt, none after the third), and then the
failure propagates; a first attempt failing with a non-rate-limit
classification propagates at once: one call, no sleep. -/
theorem C1_retry_backoff (f g : Nat → CallOutcome Unit)
    (hf : ∀ n, f n = .exn true) (hg : g 0 = .exn false) :
    retryDefault f = ⟨.raised true, [2, 4], 3⟩ ∧
    retryDefault g = ⟨.raised false, [], 1⟩ := by
  have h0 := hf 0
  have h1 := hf 1
  have h2 := hf 2
  constructor
  · show retryGo f 2 (2 + 1) 0 = _
    rw [retryGo, h0]
    simp only [Nat.add_eq_zero, and_false, if_false, OfNat.ofNat_ne_zero]
    show ({ result := (retryGo f 2 (1 + 1) 1).result,
            sleeps := 2 * 2 ^ 0 :: (retryGo f 2 (1 + 1) 1).sleeps,
            calls := (retryGo f 2 (1 + 1) 1).calls + 1 } : RetryTrace Unit) = _
    rw [retryGo, h1]
    simp only [Nat.add_eq_zero, and_false, if_false, one_ne_zero]
    show ({ result := (retryGo f 2 (0 + 1) 2).result,
            sleeps := 2 * 2 ^ 0 :: 2 * 2 ^ 1 :: (retryGo f 2 (0 + 1) 2).sleeps,
            calls := (retryGo f 2 (0 + 1) 2).calls + 1 + 1 } : RetryTrace Unit) = _
    rw [retryGo, h2]
    norm_num
  · show retryGo g 2 (2 + 1) 0 = _
    rw [retryGo, hg]

/-- C1 witness: the amended behaviour at the constant rate-limited and
constant other-failure calls. -/
theorem C1_witness :
    retryDefault (fun _ => CallOutcome.exn (α := Unit) true) =
      ⟨.raised true, [2, 4], 3⟩ ∧
    retryDefault (fun _ => CallOutcome.exn (α := Unit) false) =
      ⟨.raised false, [], 1⟩ :=
  C1_retry_backoff _ _ (fun _ => rfl) rfl

/-- C2: when the `url` query parameter is missing (or empty, which Python's
`if not url` also treats as missing) or fails the validation regex, each of
`/api/data`, `/api/direct-data` and `/api/download` answers 400 with a JSON
body carrying an `error` key and performs no outward call at all (no yt-dlp
extraction, no embed fetch). -/
theorem C2_invalid_url_rejected (env : NetEnv) (pf : ParseFns)
    (urlParam : Option String)
    (h : truthyOS urlParam = false ∨ validInstaUrl (urlParam.getD "") = false) :
    ((getData env pf urlParam).1.code = 400 ∧
      jsonHasKey (getData env pf urlParam).1 "error" = true ∧
      (getData env pf urlParam).2 = []) ∧
    ((getDirectData env pf urlParam).1.code = 400 ∧
      jsonHasKey (getDirectData env pf urlParam).1 "error" = true ∧
      (getDirectData env pf urlParam).2 = []) ∧
    ((downloadMedia env urlParam).1.code = 400 ∧
      jsonHasKey (downloadMedia env urlParam).1 "error" = true ∧
      (downloadMedia env urlParam).2 = []) := by
  by_cases ht : truthyOS urlParam = false
  · simp [getData, getDirectData, downloadMedia, ht, jsonHasKey, hasKey, dictGet]
  · rcases h with h | h
    · exact absurd h ht
    · simp [getData, getDirectData, downloadMedia, ht, h, jsonHasKey, hasKey, dictGet]

/-- C2 witness: a present but non-Instagram URL is rejected by all three
endpoints without resolver calls. -/
theorem C2_witness :
    ((getData envRL pf0 (some "https://example.com/p/x")).1.code = 400 ∧
      jsonHasKey (getData envRL pf0 (some "https://example.com/p/x")).1 "error" = true ∧
      (getData envRL pf0 (some "https://example.com/p/x")).2 = []) ∧
    ((getDirectData envRL pf0 (some "https://example.com/p/x")).1.code = 400 ∧
      jsonHasKey (getDirectData envRL pf0 (some "https://example.com/p/x")).1 "error" = true ∧
      (getDirectData envRL pf0 (some "https://example.com/p/x")).2 = []) ∧
    ((downloadMedia envRL (some "https://example.com/p/x")).1.code = 400 ∧
      jsonHasKey (downloadMedia envRL (some "https://example.com/p/x")).1 "error" = true ∧
      (downloadMedia envRL (some "https://example.com/p/x")).2 = []) :=
  C2_invalid_url_rejected envRL pf0 _ (Or.inr (by decide))

/-- C4, counterexample: with both strategies failing on a rate-limit-shaped
message, `/api/data` answers 500, not the claimed 429 (the endpoint has no
429 or 401 path at all — lines 524-540 return only 500 on failure). -/
theorem C4_counterexample :
    (getData envRL pf0 (some "https://www.instagram.com/p/ABC123/")).1.code = 500 ∧
    (getData envRL pf0 (some "https://www.instagram.com/p/ABC123/")).1.code ≠ 429 := by
  constructor <;> decide

/-- C4 (amended): when resolution of a valid URL on `/api/data` ultimately
fails (both strategies report a truthy error, whatever its classification),
the failure is surfaced as HTTP 500 with a JSON body carrying `status` and
`error`; no 429 or 401 is ever produced. -/
theorem C4_failures_surface_500 (env : NetEnv) (pf : ParseFns) (url : String)
    (hv : validInstaUrl url = true)
    (h1 : truthyOS (getPostDataYtdlp env url).1.2 = true)
    (h2 : truthyOS (getPostDataNoLogin env pf url).1.2 = true) :
    (getData env pf (some url)).1.code = 500 ∧
    jsonHasKey (getData env pf (some url)).1 "status" = true ∧
    jsonHasKey (getData env pf (some url)).1 "error" = true := by
  have hne := validInstaUrl_ne_empty url hv
  simp [getData, hne, hv, h1, h2, jsonHasKey, hasKey, dictGet]

/-- C4 witness: the amended behaviour at a concrete environment in which
both strategies fail. -/
theorem C4_witness :
    (getData envRL pf0 (some "https://www.instagram.com/p/ABC123/")).1.code = 500 ∧
    jsonHasKey (getData envRL pf0 (some "https://www.instagram.com/p/ABC123/")).1
      "status" = true ∧
    jsonHasKey (getData envRL pf0 (some "https://www.instagram.com/p/ABC123/")).1
      "error" = true :=
  C4_failures_surface_500 envRL pf0 _ (by decide) (by decide) (by decide)

/-- C5, counterexample: with strategy 1 failing on an auth-classified message
and strategy 2 succeeding, the chain calls strategy 1 once — not twice as the
claimed re-authenticate-and-retry behaviour would require (no
re-authentication logic exists in this code). -/
theorem C5_counterexample :
    (getData envAuth pf0 (some "https://www.instagram.com/p/ABC123/")).2 =
      [Step.cookieCheck, Step.ytdlpExtract, Step.embedFetch] ∧
    (getData envAuth pf0 (some "https://www.instagram.com/p/ABC123/")).2.count
      Step.ytdlpExtract ≠ 2 := by
  constructor <;> decide

/-- C5 (amended): on any failure of strategy 1 — auth-classified or not —
`/api/data` invokes strategy 1 exactly once and falls through directly to
strategy 2: the outward calls are exactly the cookie check and one yt-dlp
extraction, then one embed fetch; no re-authentication of any kind occurs. -/
theorem C5_no_reauth (env : NetEnv) (pf : ParseFns) (url : String)
    (hv : validInstaUrl url = true)
    (h1 : truthyOS (getPostDataYtdlp env url).1.2 = true) :
    (getData env pf (some url)).2 =
      [Step.cookieCheck, Step.ytdlpExtract, Step.embedFetch] ∧
    (getData env pf (some url)).2.count Step.ytdlpExtract = 1 := by
  obtain ⟨sc, hsc⟩ := extractShortcode_isSome_of_valid url hv
  have hy := ytdlp_steps env url hsc
  have hn := noLogin_steps env pf url hsc
  have hne := validInstaUrl_ne_empty url hv
  have htr : (getData env pf (some url)).2 =
      [Step.cookieCheck, Step.ytdlpExtract, Step.embedFetch] := by
    by_cases h2 : truthyOS (getPostDataNoLogin env pf url).1.2 = true
    · simp [getData, hne, hv, h1, h2, hy, hn]
    · simp [getData, hne, hv, h1, h2, hy, hn, finishData_steps]
  refine ⟨htr, ?_⟩
  rw [htr]
  decide

/-- C5 witness: the amended behaviour at a concrete environment in which
strategy 1 fails auth-classified and strategy 2 succeeds. -/
theorem C5_witness :
    (getData envAuth pf0 (some "https://www.instagram.com/p/ABC123/")).2 =
      [Step.cookieCheck, Step.ytdlpExtract, Step.embedFetch] ∧
    (getData envAuth pf0 (some "https://www.instagram.com/p/ABC123/")).2.count
      Step.ytdlpExtract = 1 :=
  C5_no_reauth envAuth pf0 _ (by decide) (by decide)

/-- C3, counterexample: `https://www.instagram.com/p/ABC/extra` is accepted
by the validator (the regex allows arbitrary non-newline text after the
segment), and the extractor returns the final path segment `extra`, not the
segment `ABC` immediately following the `p` component. -/
theorem C3_counterexample :
    validInstaUrl "https://www.instagram.com/p/ABC/extra" = true ∧
    extractShortcode "https://www.instagram.com/p/ABC/extra" = some "extra" ∧
    extractShortcode "https://www.instagram.com/p/ABC/extra" ≠ some "ABC" :=
  ⟨by decide, by decide, by decide⟩

/-- C3 (amended): the extractor returns the final `/`-delimited segment of
the URL path after stripping one trailing slash; on accepted URLs of the
shape `scheme://[www.]instagram.com/(p|reel|tv)/<segment>[/]` whose segment
is the last path component (and is free of `/`, `?`, `#`, `;` and
tab/CR/LF), this final segment is the segment immediately following the
`p|reel|tv` component, and such URLs are accepted by the validator. -/
theorem C3_extractor (sch w a seg trail : List Char)
    (hs : SchemeStr sch) (hw : WwwStr w) (ha : AltStr a) (hseg : seg ≠ [])
    (hsegc : ∀ c ∈ seg,
      c ≠ '/' ∧ c ≠ '?' ∧ c ≠ '#' ∧ c ≠ ';' ∧ isTabCrLf c = false)
    (htr : trail = [] ∨ trail = ['/']) :
    validInstaUrl (String.mk (sch ++ "://".data ++ w ++ "instagram.com/".data
      ++ a ++ "/".data ++ (seg ++ trail))) = true ∧
    extractShortcode (String.mk (sch ++ "://".data ++ w ++ "instagram.com/".data
      ++ a ++ "/".data ++ (seg ++ trail))) = some (String.mk seg) := by
  constructor
  · apply (validInstaUrl_iff_amendedShape _).mpr
    refine ⟨sch, w, a, seg ++ trail, hs, hw, ha, ?_, rfl⟩
    refine ⟨seg, trail, [], [], by simp, hseg, fun c hc => (hsegc c hc).1, ?_,
      by simp, Or.inl rfl⟩
    rcases htr with rfl | rfl
    · exact Or.inl rfl
    · exact Or.inr rfl
  · exact extractShortcode_clean sch w a seg trail hs hw ha hseg hsegc htr

/-- C3 witness: the amended behaviour at a concrete accepted URL. -/
theorem C3_witness :
    validInstaUrl "https://www.instagram.com/p/ABC123/" = true ∧
    extractShortcode "https://www.instagram.com/p/ABC123/" = some "ABC123" :=
  C3_extractor "https".data "www.".data "p".data "ABC123".data ['/']
    (Or.inr rfl) (Or.inr rfl) (Or.inl rfl) (by decide) (by decide) (Or.inr rfl)

/-- C6, counterexample: for a URL that already ends in `'/'`, appending a
further trailing slash changes the extracted shortcode — the final segment
becomes empty — so the extractor does not treat URLs with and without a
trailing slash identically in general. -/
theorem C6_counterexample :
    extractShortcode "https://www.instagram.com/p/ABC123/" = some "ABC123" ∧
    extractShortcode ("https://www.instagram.com/p/ABC123/" ++ "/") = some "" ∧
    extractShortcode ("https://www.instagram.com/p/ABC123/" ++ "/") ≠
      extractShortcode "https://www.instagram.com/p/ABC123/" :=
  ⟨by decide, by decide, by decide⟩

/-- C6 (amended): appending one trailing slash leaves the extracted
shortcode unchanged for every URL whose sanitized form does not already end
in `'/'` and whose raw parsed path has a no-op `;params` split (no `';'` in
its final segment) — in particular for every clean post/reel/tv URL without
a trailing slash. -/
theorem C6_trailing_slash (url : String)
    (h1 : (sanitizeUrl url.data).getLast? ≠ some '/')
    (h2 : ∀ sc p, urlSchemeAndRaw url = some (sc, p) → splitParams p = p) :
    extractShortcode (url ++ "/") = extractShortcode url := by
  have hdata : (url ++ "/").data = url.data ++ ['/'] := by
    rw [String.data_append]
  rcases hsp : splitScheme (sanitizeUrl url.data) with ⟨sc, r⟩
  have hsan2 : sanitizeUrl (url ++ "/").data = sanitizeUrl url.data ++ ['/'] := by
    rw [hdata, sanitize_append_slash]
  have hsp2 : splitScheme (sanitizeUrl (url ++ "/").data) = (sc, r ++ ['/']) := by
    rw [hsan2, splitScheme_append_slash, hsp]
  have hrne : r.getLast? ≠ some '/' := by
    have hsuf := splitScheme_snd_suffix (sanitizeUrl url.data)
    rw [hsp] at hsuf
    exact getLast?_suffix_ne '/' h1 hsuf
  cases hstrip : stripLit "//".data r with
  | none =>
    have hstrip2 : stripLit "//".data (r ++ ['/']) = Option.none :=
      stripSlashes_append_none r hrne hstrip
    have hraw : urlSchemeAndRaw url =
        some (sc, takeUntilChar '?' (takeUntilChar '#' r)) := by
      rw [urlSchemeAndRaw]
      simp only [hsp, hstrip]
    have hraw2 : urlSchemeAndRaw (url ++ "/") =
        some (sc, takeUntilChar '?' (takeUntilChar '#' (r ++ ['/']))) := by
      rw [urlSchemeAndRaw]
      simp only [hsp2, hstrip2]
    have hkey := tailPipeline_append sc r hrne (h2 sc _ hraw)
    simp only [extractShortcode, urlPath, hraw, hraw2, Option.map_some']
    rw [hkey]
  | some r2 =>
    have hr : r = "//".data ++ r2 := (stripLit_eq_some _ _ _).mp hstrip
    have hstrip2 : stripLit "//".data (r ++ ['/']) = some (r2 ++ ['/']) := by
      rw [hr, List.append_assoc]
      exact stripLit_append _ _
    by_cases hall : r2.all (fun c => !netlocDelim c) = true
    · have htw_a : r2.takeWhile (fun c => !netlocDelim c) = r2 :=
        takeWhile_eq_self_of_all _ r2 hall
      have hdw_a : r2.dropWhile (fun c => !netlocDelim c) = [] :=
        dropWhile_eq_nil_of_all _ r2 hall
      have htw_b : (r2 ++ ['/']).takeWhile (fun c => !netlocDelim c) = r2 := by
        rw [takeWhile_append_all _ r2 _ (fun c hc => by
          rw [List.all_eq_true] at hall; exact hall c hc)]
        rw [show List.takeWhile (fun c => !netlocDelim c) ['/'] = [] by decide,
          List.append_nil]
      have hdw_b : (r2 ++ ['/']).dropWhile (fun c => !netlocDelim c) = ['/'] := by
        rw [dropWhile_append_all _ r2 _ (fun c hc => by
          rw [List.all_eq_true] at hall; exact hall c hc)]
        decide
      by_cases hbr : r2.contains '[' ∨ r2.contains ']'
      · have hraw : urlSchemeAndRaw url = Option.none := by
          rw [urlSchemeAndRaw]
          simp only [hsp, hstrip, htw_a]
          rw [if_pos hbr]
        have hraw2 : urlSchemeAndRaw (url ++ "/") = Option.none := by
          rw [urlSchemeAndRaw]
          simp only [hsp2, hstrip2, htw_b]
          rw [if_pos hbr]
        simp only [extractShortcode, urlPath, hraw, hraw2, Option.map_none']
      · have hraw : urlSchemeAndRaw url =
            some (sc, takeUntilChar '?' (takeUntilChar '#' ([] : List Char))) := by
          rw [urlSchemeAndRaw]
          simp only [hsp, hstrip, htw_a, hdw_a]
          rw [if_neg hbr]
        have hraw2 : urlSchemeAndRaw (url ++ "/") =
            some (sc, takeUntilChar '?' (takeUntilChar '#' (['/'] : List Char))) := by
          rw [urlSchemeAndRaw]
          simp only [hsp2, hstrip2, htw_b, hdw_b]
          rw [if_neg hbr]
        have hkey := tailPipeline_append sc [] (by decide) (by decide)
        simp only [List.nil_append] at hkey
        simp only [extractShortcode, urlPath, hraw, hraw2, Option.map_some']
        rw [hkey]
    · have hallf : r2.all (fun c => !netlocDelim c) = false := by
        cases hx : r2.all (fun c => !netlocDelim c) with
        | false => rfl
        | true => exact absurd hx hall
      obtain ⟨htwb, hdwb⟩ :=
        takeWhile_append_stop (fun c => !netlocDelim c) r2 ['/'] hallf
      have hAsuf : r2.dropWhile (fun c => !netlocDelim c) <:+
          sanitizeUrl url.data := by
        have hs1 : r2 <:+ r := ⟨"//".data, hr.symm⟩
        have hs2 : r <:+ sanitizeUrl url.data := by
          have := splitScheme_snd_suffix (sanitizeUrl url.data)
          rwa [hsp] at this
        exact ((dropWhile_is_suffix _ r2).trans hs1).trans hs2
      have hqA : (r2.dropWhile (fun c => !netlocDelim c)).getLast? ≠ some '/' :=
        getLast?_suffix_ne '/' h1 hAsuf
      by_cases hbr : (r2.takeWhile (fun c => !netlocDelim c)).contains '[' ∨
          (r2.takeWhile (fun c => !netlocDelim c)).contains ']'
      · have hraw : urlSchemeAndRaw url = Option.none := by
          rw [urlSchemeAndRaw]
          simp only [hsp, hstrip]
          rw [if_pos hbr]
        have hraw2 : urlSchemeAndRaw (url ++ "/") = Option.none := by
          rw [urlSchemeAndRaw]
          simp only [hsp2, hstrip2, htwb]
          rw [if_pos hbr]
        simp only [extractShortcode, urlPath, hraw, hraw2, Option.map_none']
      · have hraw : urlSchemeAndRaw url = some (sc, takeUntilChar '?'
            (takeUntilChar '#' (r2.dropWhile (fun c => !netlocDelim c)))) := by
          rw [urlSchemeAndRaw]
          simp only [hsp, hstrip]
          rw [if_neg hbr]
        have hraw2 : urlSchemeAndRaw (url ++ "/") = some (sc, takeUntilChar '?'
            (takeUntilChar '#'
              (r2.dropWhile (fun c => !netlocDelim c) ++ ['/']))) := by
          rw [urlSchemeAndRaw]
          simp only [hsp2, hstrip2, htwb, hdwb]
          rw [if_neg hbr]
        have hkey := tailPipeline_append sc
          (r2.dropWhile (fun c => !netlocDelim c)) hqA (h2 sc _ hraw)
        simp only [extractShortcode, urlPath, hraw, hraw2, Option.map_some']
        rw [hkey]

/-- C6 witness: the amended invariance at a concrete clean post URL. -/
theorem C6_witness :
    extractShortcode ("https://www.instagram.com/p/ABC123" ++ "/") =
      extractShortcode "https://www.instagram.com/p/ABC123" ∧
    extractShortcode "https://www.instagram.com/p/ABC123" = some "ABC123" :=
  ⟨C6_trailing_slash "https://www.instagram.com/p/ABC123" (by decide)
    (fun sc p h => by
      have he : urlSchemeAndRaw "https://www.instagram.com/p/ABC123" =
          some ("https".data, "/p/ABC123".data) := by decide
      rw [he] at h
      simp only [Option.some.injEq, Prod.mk.injEq] at h
      obtain ⟨rfl, rfl⟩ := h
      decide),
   by decide⟩

/-- C7, counterexample: the 400 answer for a missing `url` parameter is a
JSON body with an `error` field but no `status` field, so not every failure
body carries both. -/
theorem C7_counterexample :
    (getData envRL pf0 Option.none).1.code = 400 ∧
    jsonHasKey (getData envRL pf0 Option.none).1 "error" = true ∧
    jsonHasKey (getData envRL pf0 Option.none).1 "status" = false :=
  ⟨by decide, by decide, by decide⟩

/-- C7 (amended): every failure response (HTTP status ≥ 400) of every
endpoint carries a JSON body with an `error` field; a `status` field is
additionally present only on the two data endpoints' resolver-failure 500
bodies, not on the 400 validation failures or the streaming/embed failures.
The health and index endpoints never fail. -/
theorem C7_failure_bodies (env : NetEnv) (pf : ParseFns) :
    (∀ urlParam, 400 ≤ (getData env pf urlParam).1.code →
      jsonHasKey (getData env pf urlParam).1 "error" = true) ∧
    (∀ urlParam, 400 ≤ (getDirectData env pf urlParam).1.code →
      jsonHasKey (getDirectData env pf urlParam).1 "error" = true) ∧
    (∀ urlParam, 400 ≤ (downloadMedia env urlParam).1.code →
      jsonHasKey (downloadMedia env urlParam).1 "error" = true) ∧
    (∀ sc, 400 ≤ (streamByShortcode env sc).1.code →
      jsonHasKey (streamByShortcode env sc).1 "error" = true) ∧
    (∀ sc, 400 ≤ (getEmbed env sc).1.code →
      jsonHasKey (getEmbed env sc).1 "error" = true) ∧
    (∀ b, (healthCheck b).1.code < 400 ∧ (indexPage b).1.code < 400) := by
  refine ⟨?_, ?_, ?_, ?_, ?_, fun b => ⟨by norm_num [healthCheck], by norm_num [indexPage]⟩⟩
  · intro urlParam h
    by_cases ht : truthyOS urlParam = false
    · simp [getData, ht, jsonHasKey, hasKey, dictGet]
    · by_cases hv : validInstaUrl (urlParam.getD "") = true
      · by_cases h1 : truthyOS (getPostDataYtdlp env (urlParam.getD "")).1.2 = true
        · by_cases h2 : truthyOS
              (getPostDataNoLogin env pf (urlParam.getD "")).1.2 = true
          · simp [getData, ht, hv, h1, h2, jsonHasKey, hasKey, dictGet]
          · rcases noLogin_pair env pf (urlParam.getD "") with ⟨d, u, hp, hu⟩ | ⟨e, hp, he⟩
            · exfalso
              have hp2 : (getPostDataNoLogin env pf (urlParam.getD "")).1.1 = some d := by
                rw [hp]
              have hgd : getData env pf urlParam = finishData env (some d)
                  ((getPostDataYtdlp env (urlParam.getD "")).2 ++
                    (getPostDataNoLogin env pf (urlParam.getD "")).2) := by
                simp [getData, ht, hv, h1, h2, hp2]
              rw [hgd, finishData_code env _ hu] at h
              omega
            · exact absurd (by rw [congrArg Prod.snd hp]; exact he) h2
        · rcases ytdlp_pair env (urlParam.getD "") with ⟨d, u, hp, hu⟩ | ⟨e, hp, he⟩
          · exfalso
            have hp2 : (getPostDataYtdlp env (urlParam.getD "")).1.1 = some d := by
              rw [hp]
            have hgd : getData env pf urlParam = finishData env (some d)
                (getPostDataYtdlp env (urlParam.getD "")).2 := by
              simp [getData, ht, hv, h1, hp2]
            rw [hgd, finishData_code env _ hu] at h
            omega
          · exact absurd (by rw [congrArg Prod.snd hp]; exact he) h1
      · simp [getData, ht, hv, jsonHasKey, hasKey, dictGet]
  · intro urlParam h
    by_cases ht : truthyOS urlParam = false
    · simp [getDirectData, ht, jsonHasKey, hasKey, dictGet]
    · by_cases hv : validInstaUrl (urlParam.getD "") = true
      · obtain ⟨sc0, hsc⟩ := extractShortcode_isSome_of_valid _ hv
        by_cases h1 : truthyOS (getPostDataYtdlp env (urlParam.getD "")).1.2 = true
        · by_cases h2 : truthyOS
              (getPostDataNoLogin env pf (urlParam.getD "")).1.2 = true
          · simp [getDirectData, ht, hv, hsc, h1, h2, jsonHasKey, hasKey, dictGet]
          · rcases noLogin_pair env pf (urlParam.getD "") with ⟨d, u, hp, hu⟩ | ⟨e, hp, he⟩
            · exfalso
              have hp2 : (getPostDataNoLogin env pf (urlParam.getD "")).1.1 = some d := by
                rw [hp]
              have hgd : getDirectData env pf urlParam = finishDirect env sc0 (some d)
                  ((getPostDataYtdlp env (urlParam.getD "")).2 ++
                    (getPostDataNoLogin env pf (urlParam.getD "")).2) := by
                simp [getDirectData, ht, hv, hsc, h1, h2, hp2]
              rw [hgd, finishDirect_code env _ _ hu] at h
              omega
            · exact absurd (by rw [congrArg Prod.snd hp]; exact he) h2
        · rcases ytdlp_pair env (urlParam.getD "") with ⟨d, u, hp, hu⟩ | ⟨e, hp, he⟩
          · exfalso
            have hp2 : (getPostDataYtdlp env (urlParam.getD "")).1.1 = some d := by
              rw [hp]
            have hgd : getDirectData env pf urlParam = finishDirect env sc0 (some d)
                (getPostDataYtdlp env (urlParam.getD "")).2 := by
              simp [getDirectData, ht, hv, hsc, h1, hp2]
            rw [hgd, finishDirect_code env _ _ hu] at h
            omega
          · exact absurd (by rw [congrArg Prod.snd hp]; exact he) h1
      · simp [getDirectData, ht, hv, jsonHasKey, hasKey, dictGet]
  · intro urlParam h
    by_cases ht : truthyOS urlParam = false
    · simp [downloadMedia, ht, jsonHasKey, hasKey, dictGet]
    · by_cases hv : validInstaUrl (urlParam.getD "") = true
      · cases hsc : extractShortcode (urlParam.getD "") with
        | none => simp [downloadMedia, ht, hv, hsc, jsonHasKey, hasKey, dictGet]
        | some sc =>
          cases hi : env.ytdlpStreamInfo (urlParam.getD "") with
          | error e =>
            simp [downloadMedia, ht, hv, hsc, hi, jsonHasKey, hasKey, dictGet]
          | ok info =>
            have hdm : (downloadMedia env urlParam).1 = (downloadFlow env info).1 := by
              simp [downloadMedia, ht, hv, hsc, hi]
            rw [hdm] at h ⊢
            exact downloadFlow_error_key env info h
      · simp [downloadMedia, ht, hv, jsonHasKey, hasKey, dictGet]
  · intro sc h
    cases hi : env.ytdlpStreamInfo ("https://www.instagram.com/p/" ++ sc ++ "/") with
    | error e => simp [streamByShortcode, hi, jsonHasKey, hasKey, dictGet]
    | ok info =>
      have hsm : (streamByShortcode env sc).1 = (downloadFlow env info).1 := by
        simp [streamByShortcode, hi]
      rw [hsm] at h ⊢
      exact downloadFlow_error_key env info h
  · intro sc h
    cases hp : env.embedPage ("https://www.instagram.com/p/" ++ sc ++ "/embed/") with
    | error e => simp [getEmbed, hp, jsonHasKey, hasKey, dictGet]
    | ok html =>
      rw [show (getEmbed env sc).1.code = 200 by simp [getEmbed, hp]] at h
      omega

/-- C7 witness: the amended property at the concrete missing-parameter
failure. -/
theorem C7_witness :
    jsonHasKey (getData envRL pf0 Option.none).1 "error" = true :=
  (C7_failure_bodies envRL pf0).1 Option.none (by decide)

/-- C8, counterexample: `https://www.instagram.com/p/A/\nx` matches the
claimed shape (segment `A`, then `/` and further characters), yet the
validator rejects it: the regex's `.*$` cannot cross the embedded newline. -/
theorem C8_counterexample :
    specShape "https://www.instagram.com/p/A/\nx" ∧
    validInstaUrl "https://www.instagram.com/p/A/\nx" = false := by
  constructor
  · refine ⟨"https".data, "www.".data, "p".data, "A/\nx".data,
      Or.inr rfl, Or.inr rfl, Or.inl rfl, ?_, rfl⟩
    exact ⟨"A".data, "/\nx".data, rfl, by decide, by decide,
      Or.inr ⟨"\nx".data, rfl⟩⟩
  · decide

/-- C8 (amended): the validator accepts a string iff it matches
`scheme://[www.]instagram.com/(p|reel|tv)/<segment>` followed by an optional
slash and then only characters Python's `.`/`$` admit (no newline except one
final one); it rejects the empty string, and every rejected URL gets a 400
answer from `/api/data` with no resolver call. -/
theorem C8_validator :
    (∀ url : String, validInstaUrl url = true ↔ amendedShape url) ∧
    validInstaUrl "" = false ∧
    (∀ (env : NetEnv) (pf : ParseFns) (url : String),
      validInstaUrl url = false →
      (getData env pf (some url)).1.code = 400 ∧
      (getData env pf (some url)).2 = []) := by
  refine ⟨validInstaUrl_iff_amendedShape, by decide, ?_⟩
  intro env pf url h
  by_cases ht : truthyOS (some url) = false
  · simp [getData, ht]
  · simp [getData, ht, h]

/-- C8 witness: the amended validator characterisation at concrete strings —
an accepted URL together with its shape decomposition, and a rejected
string's 400 treatment. -/
theorem C8_witness :
    validInstaUrl "https://www.instagram.com/p/XYZ987" = true ∧
    (getData envRL pf0 (some "ftp://example.com/p/x")).1.code = 400 ∧
    (getData envRL pf0 (some "ftp://example.com/p/x")).2 = [] := by
  refine ⟨?_, ?_, ?_⟩
  · apply (C8_validator.1 "https://www.instagram.com/p/XYZ987").mpr
    exact ⟨"https".data, "www.".data, "p".data, "XYZ987".data,
      Or.inr rfl, Or.inr rfl, Or.inl rfl,
      ⟨"XYZ987".data, [], [], [], by simp, by decide, by decide,
        Or.inl rfl, by decide, Or.inl rfl⟩, rfl⟩
  · exact (C8_validator.2.2 envRL pf0 _ (by decide)).1
  · exact (C8_validator.2.2 envRL pf0 _ (by decide)).2

/-- C9: `/health` performs no network call — its only outward step is the
local cookie-file existence test — and its response is the constant-shape
200 JSON `{status: "ok", version, using_ytdlp, cookie_file}` depending only
on that local state. -/
theorem C9_health_local (b : Bool) :
    healthCheck b = (⟨200, .json (.dict
      [("status", .str "ok"), ("version", .str "2.0.0"),
       ("using_ytdlp", .bool true), ("cookie_file", .bool b)])⟩,
      [Step.cookieCheck]) ∧
    (healthCheck b).2.all (fun s => !isNetworkStep s) = true :=
  ⟨rfl, rfl⟩

/-- C10: each resolver strategy returns a pair with exactly one component
set: a dict with no error, or no dict with a truthy (non-`None`, non-empty)
error message; no exception escapes either strategy (every raise inside is
caught and converted to the error form). -/
theorem C10_strategy_pairs (env : NetEnv) (pf : ParseFns) (url : String) :
    ((∃ d, (getPostDataNoLogin env pf url).1 = (some d, Option.none)) ∨
     (∃ e, (getPostDataNoLogin env pf url).1 = (Option.none, some e) ∧
       truthyOS (some e) = true)) ∧
    ((∃ d, (getPostDataYtdlp env url).1 = (some d, Option.none)) ∨
     (∃ e, (getPostDataYtdlp env url).1 = (Option.none, some e) ∧
       truthyOS (some e) = true)) := by
  constructor
  · rcases noLogin_pair env pf url with ⟨d, u, h, -⟩ | h
    · exact Or.inl ⟨d, h⟩
    · exact Or.inr h
  · rcases ytdlp_pair env url with ⟨d, u, h, -⟩ | h
    · exact Or.inl ⟨d, h⟩
    · exact Or.inr h

end InstaApi
